import Mathlib

/-!
Verification of the autorebase repository against its specification.

The development shallowly embeds the TypeScript/Flow sources:

* `src/unnamed/part_009` (shared-internals git helpers: `fetchReferenceSha`,
  `updateReference`, `createTemporaryReference`, `withTemporaryReference`),
* `src/unnamed/part_010` (`github-cherry-pick`: `cherryPickCommit`,
  `cherryPickCommitsOnReference`, `cherryPickCommits`),
* `src/packages/github-rebase/src/index.js` (`checkSameHead`,
  `rebasePullRequest`),
* `src/src/utils.ts`, second half (`getPullRequestInfo`,
  `isMergeableStateKnown`, `checkKnownMergeableState`,
  `waitForKnownMergeableState`, `getPullRequestInfoWithKnownMergeableState`,
  `findOldestPullRequest`, `withLabelLock`),
* `src/src/autorebase.ts`, third version (`merge`, `rebase`,
  `findAndRebasePullRequestOnSameBase`, `autorebasePullRequest`,
  `rebaseOneTime`, `autorebase`).

Remote GitHub primitives are modelled as oracles and as operations on an
explicit state; every remote call that mutates something appends an event to
a log so that "no side effect" claims are statements about the log.
Asynchronous suspension points where concurrent runs may interleave are
modelled through the `_intercept` hook that the sources themselves expose for
exactly that purpose in their tests.
-/

namespace Autorebase

/-! ## Git data model (shared-internals, github-cherry-pick, github-rebase) -/

abbrev Sha := String

abbrev RefName := String

/-- Errors surfaced by the remote git API or raised by the engines.
`mergeConflict` carries the message of the host response to
`POST /repos/merges`; GitHub answers a conflict with the fixed message
"Merge conflict" (the repository's own test expects `/Merge conflict/`),
which in particular mentions no commit id.  `headChanged` is the error built
by `checkSameHead` in `github-rebase`. -/
inductive GitErr where
  | notFound : GitErr
  | alreadyExists : GitErr
  | mergeConflict : String → GitErr
  | refChanged : GitErr
  | headChanged : RefName → Sha → Sha → GitErr
  deriving DecidableEq, Repr

/-- One reference-level remote call.  `updateRef` records the attempt even
when the host rejects it (non-fast-forward), `mergeAttempt` records a call to
the merge endpoint even when it reports a conflict. -/
inductive GEv where
  | createRef : RefName → Sha → GEv
  | updateRef : Bool → RefName → Sha → GEv
  | deleteRef : RefName → GEv
  | mergeAttempt : RefName → Sha → GEv
  deriving DecidableEq, Repr

/-- The reference a remote call is about. -/
def GEv.ref : GEv → RefName
  | .createRef r _ => r
  | .updateRef _ r _ => r
  | .deleteRef r => r
  | .mergeAttempt r _ => r

/-- Remote git state: the references of the repository, a counter used to
generate fresh object ids and unique reference names (modelling uuid/sha
generation), and the log of reference-level calls made so far. -/
structure GitState where
  refs : List (RefName × Sha)
  fresh : Nat
  log : List GEv
  deriving DecidableEq, Repr

/-- Outcome of an effectful git computation: a value or a raised error,
together with the state at that moment (needed to give `finally` clauses
their semantics). -/
inductive GOut (α : Type) where
  | ok : α → GitState → GOut α
  | err : GitErr → GitState → GOut α
  deriving DecidableEq, Repr

def GOut.state : GOut α → GitState
  | .ok _ s => s
  | .err _ s => s

def GOut.errOf : GOut α → Option GitErr
  | .ok _ _ => none
  | .err e _ => some e

def GOut.valOf : GOut α → Option α
  | .ok v _ => some v
  | .err _ _ => none

def lookupRef (s : GitState) (r : RefName) : Option Sha :=
  (s.refs.find? (fun p => p.1 = r)).map (fun p => p.2)

def refNames (s : GitState) : List RefName := s.refs.map (fun p => p.1)

def setRef (s : GitState) (r : RefName) (sha : Sha) : GitState :=
  { s with refs := s.refs.map (fun p => if p.1 = r then (p.1, sha) else p) }

def freshSha (s : GitState) : Sha := "generated-" ++ toString s.fresh

def logEv (s : GitState) (e : GEv) : GitState := { s with log := s.log ++ [e] }

/-- `fetchReferenceSha` (shared-internals): read a reference, no mutation. -/
def fetchReferenceSha (s : GitState) (r : RefName) : GOut Sha :=
  match lookupRef s r with
  | none => .err .notFound s
  | some sha => .ok sha s

/-- Host ancestry oracle deciding whether an update is a fast-forward. -/
abbrev AncOracle := Sha → Sha → Bool

/-- `updateReference` (shared-internals): `force` bypasses the host's
fast-forward check; without `force` the host accepts the update only when the
new sha equals the current one or is a descendant of it. -/
def updateReference (anc : AncOracle) (force : Bool) (s : GitState)
    (r : RefName) (sha : Sha) : GOut Unit :=
  let s := logEv s (.updateRef force r sha)
  match lookupRef s r with
  | none => .err .notFound s
  | some cur =>
      if force then .ok () (setRef s r sha)
      else if cur = sha || anc cur sha then .ok () (setRef s r sha)
      else .err .refChanged s

/-- Create a reference (host rejects an existing name). -/
def createReference (s : GitState) (r : RefName) (sha : Sha) : GOut Unit :=
  let s := logEv s (.createRef r sha)
  if r ∈ refNames s then .err .alreadyExists s
  else .ok () { s with refs := (r, sha) :: s.refs }

/-- Delete a reference. -/
def deleteReference (s : GitState) (r : RefName) : GOut Unit :=
  let s := logEv s (.deleteRef r)
  if r ∈ refNames s then .ok () { s with refs := s.refs.filter (fun p => p.1 ≠ r) }
  else .err .notFound s

/-- Host three-way-merge oracle: given the current tip of the base branch and
the commit being merged, either the resulting tree or `none` for a conflict. -/
abbrev MergeOracle := Sha → Sha → Option Sha

/-- `octokit.repos.merge`: merge `commit` into branch `r`.  On success the
host creates a merge commit, advances `r` to it and the caller reads the
resulting tree sha; on conflict the host changes nothing and answers
"Merge conflict". -/
def octoMerge (mo : MergeOracle) (s : GitState) (r : RefName) (commit : Sha) :
    GOut Sha :=
  let s := logEv s (.mergeAttempt r commit)
  match lookupRef s r with
  | none => .err .notFound s
  | some tip =>
      match mo tip commit with
      | none => .err (.mergeConflict "Merge conflict") s
      | some tree =>
          let m := freshSha s
          .ok tree (setRef { s with fresh := s.fresh + 1 } r m)

/-- `createCommitWithDifferentTree` (github-cherry-pick): read the original
commit, then create a commit with the merged tree and a single parent.
Creating a commit object mutates no reference. -/
def createCommitWithDifferentTree (s : GitState) (_commit : Sha)
    (_parent : Sha) (_tree : Sha) : GOut Sha :=
  .ok (freshSha s) { s with fresh := s.fresh + 1 }

/-- `withTemporaryReference` (shared-internals): create a uniquely named
temporary reference, run the action, and delete the temporary reference in a
`finally` clause, on the success and on the error path alike. -/
def withTemporaryReference (action : RefName → GitState → GOut α)
    (s : GitState) (r : RefName) (sha : Sha) : GOut α :=
  let temp := r ++ "-" ++ toString s.fresh
  match createReference { s with fresh := s.fresh + 1 } temp sha with
  | .err e s1 => .err e s1
  | .ok _ s1 =>
      match action temp s1 with
      | .ok v s2 =>
          match deleteReference s2 temp with
          | .ok _ s3 => .ok v s3
          | .err e s3 => .err e s3
      | .err e s2 =>
          match deleteReference s2 temp with
          | .ok _ s3 => .err e s3
          | .err e2 s3 => .err e2 s3

/-- The name `withTemporaryReference` generates from `r` at state `s`. -/
@[reducible] def tempName (s : GitState) (r : RefName) : RefName :=
  r ++ "-" ++ toString s.fresh

/-- `cherryPickCommit` (github-cherry-pick): merge the commit into the branch,
re-create the merged tree as a single-parent commit, and force-update the
branch to it. -/
def cherryPickCommit (mo : MergeOracle) (anc : AncOracle) (commit : Sha)
    (r : RefName) (sha : Sha) (s : GitState) : GOut Sha :=
  match octoMerge mo s r commit with
  | .err e s1 => .err e s1
  | .ok tree s1 =>
      match createCommitWithDifferentTree s1 commit sha tree with
      | .err e s2 => .err e s2
      | .ok created s2 =>
          match updateReference anc true s2 r created with
          | .err e s3 => .err e s3
          | .ok _ s3 => .ok created s3

/-- `cherryPickCommitsOnReference` (github-cherry-pick): fold
`cherryPickCommit` over the commit list, threading the evolving tip. -/
def cherryPickCommitsOnReference (mo : MergeOracle) (anc : AncOracle)
    (r : RefName) : List Sha → Sha → GitState → GOut Sha
  | [], sha, s => .ok sha s
  | c :: cs, sha, s =>
      match cherryPickCommit mo anc c r sha s with
      | .err e s1 => .err e s1
      | .ok sha1 s1 => cherryPickCommitsOnReference mo anc r cs sha1 s1

/-- External concurrent activity injected at the suspension point the source
exposes as `_intercept`; it mutates references (other processes pushing) and
nothing else. -/
abbrev Intercept := List (RefName × Sha) → List (RefName × Sha)

def applyIntercept (i : Intercept) (s : GitState) : GitState :=
  { s with refs := i s.refs }

/-- `cherryPickCommits` (github-cherry-pick, `src/unnamed/part_010`):
read the head tip, run `_intercept`, then under a temporary reference
rooted at that tip cherry-pick every commit in order and finally
fast-forward-update the head branch to the new tip.  The temporary
reference is deleted on every exit path. -/
def cherryPickCommits (mo : MergeOracle) (anc : AncOracle) (i : Intercept)
    (commits : List Sha) (head : RefName) (s : GitState) : GOut Sha :=
  match fetchReferenceSha s head with
  | .err e s0 => .err e s0
  | .ok headInitialSha s0 =>
      let s0 := applyIntercept i s0
      withTemporaryReference (fun temp s1 =>
        match cherryPickCommitsOnReference mo anc temp commits headInitialSha s1 with
        | .err e s2 => .err e s2
        | .ok newSha s2 =>
            match updateReference anc false s2 head newSha with
            | .err e s3 => .err e s3
            | .ok _ s3 => .ok newSha s3)
        s0 ("cherry-pick-" ++ head) headInitialSha

/-- `checkSameHead` (github-rebase): re-read the head reference and raise
"Rebase aborted because the head branch changed." when its sha differs from
the one recorded at the start of the call. -/
def checkSameHead (s : GitState) (r : RefName) (expected : Sha) : GOut Unit :=
  match fetchReferenceSha s r with
  | .err e s1 => .err e s1
  | .ok actual s1 =>
      if actual ≠ expected then .err (.headChanged r actual expected) s1
      else .ok () s1

/-- The pull-request record returned by `octokit.pullRequests.get`, restricted
to the fields `rebasePullRequest` reads: base branch name, head branch name
and the head sha embedded in the payload. -/
structure PRData where
  number : Nat
  baseRef : RefName
  headRef : RefName
  headSha : Sha
  deriving DecidableEq, Repr

/-- `rebasePullRequest` (github-rebase, `src/packages/github-rebase/src/index.js`):
read the pull request, re-fetch the base tip directly (payload values can be
stale), record the head tip from the payload, run `_intercept`, then under a
temporary reference rooted at the base tip cherry-pick the pull request's
commits (the inner `cherryPickCommits` creates its own nested temporary
reference), re-verify the head tip with `checkSameHead` and only then
force-update the head branch.  `commits` stands for the fully paginated
commit list `fetchCommits` returns. -/
def rebasePullRequest (mo : MergeOracle) (anc : AncOracle) (pr : PRData)
    (commits : List Sha) (i : Intercept) (s : GitState) : GOut Sha :=
  match fetchReferenceSha s pr.baseRef with
  | .err e s0 => .err e s0
  | .ok baseInitialSha s0 =>
      let s0 := applyIntercept i s0
      withTemporaryReference (fun temp s1 =>
        match cherryPickCommits mo anc id commits temp s1 with
        | .err e s2 => .err e s2
        | .ok newSha s2 =>
            match checkSameHead s2 pr.headRef pr.headSha with
            | .err e s3 => .err e s3
            | .ok _ s3 =>
                match updateReference anc true s3 pr.headRef newSha with
                | .err e s4 => .err e s4
                | .ok _ s4 => .ok newSha s4)
        s0 ("rebase-pull-request-" ++ toString pr.number) baseInitialSha

/-! ## Mergeable state, pull-request payloads and the resolver
(`src/src/utils.ts`, second half) -/

/-- `MergeableState` enum of the GitHub API. -/
inductive MergeableState where
  | behind | blocked | clean | dirty | unknown | unstable
  deriving DecidableEq, Repr

abbrev LabelName := String

/-- The fields of `octokit.pulls.get`'s response that the code reads.
`mergeable` and `rebaseable` are nullable host-computed flags; `closed_at`
is `none` while the pull request is open. -/
structure PRPayload where
  number : Nat
  baseRef : RefName
  headRef : RefName
  headSha : Sha
  closedAt : Option String
  labels : List LabelName
  mergeable : Option Bool
  mergeableState : MergeableState
  merged : Bool
  rebaseable : Option Bool
  deriving DecidableEq, Repr

/-- `isMergeableStateKnown` (utils.ts line 424): closed, or mergeable state
resolved away from `unknown`. -/
def isMergeableStateKnown (p : PRPayload) : Bool :=
  p.closedAt ≠ none || p.mergeableState ≠ .unknown

/-- The assertion error `checkKnownMergeableState` throws (caught and turned
into a retry by `waitForKnownMergeableState`). -/
inductive RErr where
  | assertionFailed : RErr
  deriving DecidableEq, Repr

/-- `checkKnownMergeableState` on the payload fetched at one attempt:
`assert(isMergeableStateKnown(pullRequest))` then return the payload. -/
def checkKnownMergeableState (p : PRPayload) : Except RErr PRPayload :=
  if isMergeableStateKnown p then .ok p else .error .assertionFailed

/-- The `promise-retry` npm package over the `retry` module, with its
documented defaults `retries = 10` and `factor = 2`: run the operation; on
failure, while retries remain, wait `minTimeout * factor ^ attempt`
milliseconds and run it again, and once retries are exhausted reject with
the operation's error.  The returned list collects the delays waited. -/
def promiseRetryGo (f : Nat → Except ε α) (minTimeout factor : Nat) :
    Nat → Nat → List Nat → Except ε (α × List Nat)
  | attempt, 0, delays => (f attempt).map (fun a => (a, delays))
  | attempt, remaining + 1, delays =>
      match f attempt with
      | .ok a => .ok (a, delays)
      | .error _ =>
          promiseRetryGo f minTimeout factor (attempt + 1) remaining
            (delays ++ [minTimeout * factor ^ attempt])

def promiseRetry (retries minTimeout factor : Nat) (f : Nat → Except ε α) :
    Except ε (α × List Nat) :=
  promiseRetryGo f minTimeout factor 0 retries []

/-- `waitForKnownMergeableState` (utils.ts lines 455-484):
`promiseRetry` with options `{ minTimeout: 500 }` (hence the library defaults
`retries = 10`, `factor = 2`) around `checkKnownMergeableState`; the fetch of
attempt `n` is the oracle value `fetch n`. -/
def waitForKnownMergeableState (fetch : Nat → PRPayload) :
    Except RErr (PRPayload × List Nat) :=
  promiseRetry 10 500 2 (fun n => checkKnownMergeableState (fetch n))

/-- `PullRequestInfo` (utils.ts). -/
structure PullRequestInfo where
  base : RefName
  head : RefName
  labeledAndOpenedAndRebaseable : Bool
  mergeableState : MergeableState
  merged : Bool
  pullRequestNumber : Nat
  sha : Sha
  deriving DecidableEq, Repr

/-- `getPullRequestInfo` (utils.ts lines 377-422).  The derived attribute is
`labels.map(({name}) => name).includes(label) && closedAt === null &&
mergeable`; the code deliberately stopped consulting the `rebaseable` flag
(see its comment) and uses the nullable `mergeable` flag, whose `null` value
is falsy in the JavaScript conjunction. -/
def getPullRequestInfo (label : LabelName) (p : PRPayload) : PullRequestInfo :=
  { base := p.baseRef
    head := p.headRef
    labeledAndOpenedAndRebaseable :=
      p.labels.contains label && p.closedAt = none && p.mergeable = some true
    mergeableState := p.mergeableState
    merged := p.merged
    pullRequestNumber := p.number
    sha := p.headSha }

/-! ## Orchestration model (`src/src/utils.ts` second half and
`src/src/autorebase.ts` third version)

At this level the remote host is an oracle (`Host`) and the state tracks the
labels of each pull request plus a log of the mutating or expensive calls
performed.  `rebasePullRequest`, embedded in full above at the git level,
performs only git-data and pull-request reads, so at the orchestration level
an invocation of it is one `rebaseCall` event whose success is decided by the
`Host.rebaseOk` oracle. -/

abbrev Username := String

/-- `String.prototype.trim`: strip whitespace from both ends (executable
model over the character list). -/
def jsTrim (s : String) : String :=
  ⟨((s.data.dropWhile Char.isWhitespace).reverse.dropWhile
      Char.isWhitespace).reverse⟩

/-- Collaborator permission levels
(`octokit.repos.getCollaboratorPermissionLevel`). -/
inductive Permission where
  | admin | write | read | noAccess
  deriving DecidableEq, Repr

/-- One orchestration-level remote call.  `removeLabel` records whether the
host accepted the removal (it rejects removing an absent label);
`fetchPage` is the fetch of one page of search results by
`octokit.paginate`; `fetchDetails` is the polling `octokit.pulls.get`
burst of `waitForKnownMergeableState` for one candidate. -/
inductive OEv where
  | removeLabel : Nat → LabelName → Bool → OEv
  | addLabel : Nat → LabelName → OEv
  | comment : Nat → String → OEv
  | rebaseCall : Nat → OEv
  | prMerge : Nat → OEv
  | deleteBranch : RefName → OEv
  | fetchPage : String → Nat → OEv
  | fetchDetails : Nat → OEv
  deriving DecidableEq, Repr

/-- Orchestration state: the labels currently on each pull request, and the
log of remote calls. -/
structure OrchState where
  prLabels : List (Nat × List LabelName)
  log : List OEv
  deriving DecidableEq, Repr

def labelsOf (s : OrchState) (n : Nat) : List LabelName :=
  (((s.prLabels.find? (fun p => p.1 = n)).map (fun p => p.2))).getD []

def setLabels (s : OrchState) (n : Nat) (ls : List LabelName) : OrchState :=
  { s with prLabels := (n, ls) :: s.prLabels.filter (fun p => p.1 ≠ n) }

def logO (s : OrchState) (e : OEv) : OrchState := { s with log := s.log ++ [e] }

/-- Errors raised at the orchestration level: the host's 404 on removing an
absent label, a failure of the underlying `rebasePullRequest`, the rethrown
`Error("rebase failed")`, and exhaustion of the mergeable-state retries. -/
inductive OErr where
  | labelMissing : OErr
  | rebaseError : OErr
  | rebaseFailed : OErr
  | retryError : OErr
  deriving DecidableEq, Repr

/-- Outcome of an orchestration computation. -/
inductive OOut (α : Type) where
  | ok : α → OrchState → OOut α
  | raised : OErr → OrchState → OOut α
  deriving DecidableEq, Repr

def OOut.state : OOut α → OrchState
  | .ok _ s => s
  | .raised _ s => s

def OOut.isRaised : OOut α → Bool
  | .ok _ _ => false
  | .raised _ _ => true

/-- `octokit.issues.removeLabel`: fails when the label is not present. -/
def removeLabel (n : Nat) (l : LabelName) (s : OrchState) : OOut Unit :=
  if l ∈ labelsOf s n then
    .ok () (setLabels (logO s (.removeLabel n l true)) n ((labelsOf s n).erase l))
  else .raised .labelMissing (logO s (.removeLabel n l false))

/-- `octokit.issues.addLabels` with `labels: [label]`. -/
def addLabels (n : Nat) (l : LabelName) (s : OrchState) : OOut Unit :=
  let cur := labelsOf s n
  .ok () (setLabels (logO s (.addLabel n l)) n (if l ∈ cur then cur else cur ++ [l]))

/-- `withLabelLock` (utils.ts lines 615-656): acquire by removing the label
(a host failure means the lock is already held and yields `false`), run the
action, then re-add the label and yield `true`.  The source has no
`try`/`finally` around the action: when the action throws, the error
propagates without the label being re-added. -/
def withLabelLock (action : OrchState → OOut Unit) (l : LabelName) (n : Nat)
    (s : OrchState) : OOut Bool :=
  match removeLabel n l s with
  | .raised _ s1 => .ok false s1
  | .ok _ s1 =>
      match action s1 with
      | .raised e s2 => .raised e s2
      | .ok _ s2 =>
          match addLabels n l s2 with
          | .raised e s3 => .raised e s3
          | .ok _ s3 => .ok true s3

/-- The remote host as seen by the orchestration: search results (pages of
pull-request numbers for a query string), the payload answered to the n-th
`pulls.get` of a pull request, collaborator permissions, the autosquash
check of github-rebase, and whether `rebasePullRequest` succeeds on a pull
request. -/
structure Host where
  search : String → List (List Nat)
  fetchPR : Nat → Nat → PRPayload
  permission : Username → Permission
  needAutosquash : Nat → Bool
  rebaseOk : Nat → Bool

/-- `getPullRequestInfoWithKnownMergeableState` (utils.ts lines 486-520):
always poll the host for a payload with a known mergeable state (the payload
embedded in the caller's input is never trusted), then derive the info. -/
def getPullRequestInfoWithKnownMergeableState (host : Host) (label : LabelName)
    (n : Nat) (s : OrchState) : OOut PullRequestInfo :=
  match waitForKnownMergeableState (host.fetchPR n) with
  | .error _ => .raised .retryError (logO s (.fetchDetails n))
  | .ok (p, _) => .ok (getPullRequestInfo label p) (logO s (.fetchDetails n))

/-- The short-circuiting sequential reduce inside `findOldestPullRequest`:
once a result is found, later iterations return it immediately without
fetching anything, so the scan stops resolving candidates at the first
match. -/
def findOldestGo (host : Host) (label : LabelName)
    (predicate : PullRequestInfo → Bool) :
    List Nat → OrchState → OOut (Option PullRequestInfo)
  | [], s => .ok none s
  | n :: rest, s =>
      match getPullRequestInfoWithKnownMergeableState host label n s with
      | .raised e s1 => .raised e s1
      | .ok info s1 =>
          if predicate info then .ok (some info) s1
          else findOldestGo host label predicate rest s1

/-- The search query built by `findOldestPullRequest`. -/
def searchQuery (owner repo : String) (label : LabelName)
    (extraSearchQualifiers : String) : String :=
  "is:pr is:open label:\"" ++ label ++ "\" repo:" ++ owner ++ "/" ++ repo
    ++ " " ++ extraSearchQualifiers

/-- `findOldestPullRequest` (utils.ts lines 527-586): build the query (ordered
ascending by creation date), sleep briefly, fetch ALL result pages through
`octokit.paginate`, concatenate the numbers, then scan them sequentially with
the short-circuiting reduce. -/
def findOldestPullRequest (host : Host) (owner repo : String)
    (extraSearchQualifiers : String) (label : LabelName)
    (predicate : PullRequestInfo → Bool) (s : OrchState) :
    OOut (Option PullRequestInfo) :=
  let query := searchQuery owner repo label extraSearchQualifiers
  let pages := host.search query
  let s :=
    { s with log := s.log ++ (List.range pages.length).map (fun i => .fetchPage query i) }
  findOldestGo host label predicate pages.flatten s

/-- `findAutorebaseablePullRequestMatchingSha` (utils.ts lines 588-612). -/
def findAutorebaseablePullRequestMatchingSha (host : Host) (owner repo : String)
    (label : LabelName) (sha : Sha) (s : OrchState) :
    OOut (Option PullRequestInfo) :=
  findOldestPullRequest host owner repo sha label
    (fun i => i.labeledAndOpenedAndRebaseable && i.sha = sha) s

/-! ### The Decision Engine (`src/src/autorebase.ts`, third version) -/

/-- The Action variants the third `autorebase` can return.  (Its `Action`
union also declares a `failed` variant, but `autorebase` itself never returns
it: failures are thrown.) -/
inductive Action where
  | abort : Nat → Action
  | denyOneTimeRebase : Nat → Action
  | merge : Nat → Action
  | rebase : Nat → Action
  | nop : Action
  deriving DecidableEq, Repr

inductive PRAction where
  | closed | opened | synchronize
  | labeled : LabelName → PRAction
  deriving DecidableEq, Repr

inductive ReviewAction where
  | dismissed | edited | submitted
  deriving DecidableEq, Repr

/-- Inbound webhook events (autorebase.ts lines 742-791).  For an
`issue_comment` event, `isPullRequest` models `issue.pull_request`
being defined; for a `pull_request_review` event the payload carries only
the pull-request number. -/
inductive AEvent where
  | checkRun : Sha → AEvent
  | status : Sha → AEvent
  | issueComment : String → Username → Nat → Bool → AEvent
  | pullRequest : PRAction → PRPayload → AEvent
  | pullRequestReview : ReviewAction → Nat → AEvent
  deriving DecidableEq, Repr

/-- `merge` (autorebase.ts lines 800-830): merge the pull request with the
rebase merge method, delete its head branch, return the merge action. -/
def mergeAction (head : RefName) (n : Nat) (s : OrchState) : OOut Action :=
  .ok (.merge n) { s with log := s.log ++ [.prMerge n, .deleteBranch head] }

/-- `rebase` (autorebase.ts lines 832-924): run `rebasePullRequest`, through
`withLabelLock` when a label is supplied (JavaScript truthiness: an empty
label string also skips the lock); on lock contention return `abort`.  Any
thrown error is caught, an explanatory comment posted on the pull request,
and `Error("rebase failed")` is rethrown. -/
def rebaseAction (host : Host) (label : Option LabelName) (n : Nat)
    (s : OrchState) : OOut Action :=
  let doRebase : OrchState → OOut Unit := fun s =>
    if host.rebaseOk n then .ok () (logO s (.rebaseCall n))
    else .raised .rebaseError (logO s (.rebaseCall n))
  let inner : OOut Action :=
    match label with
    | some l =>
        if l = "" then
          match doRebase s with
          | .ok _ s1 => .ok (.rebase n) s1
          | .raised e s1 => .raised e s1
        else
          match withLabelLock doRebase l n s with
          | .ok false s1 => .ok (.abort n) s1
          | .ok true s1 => .ok (.rebase n) s1
          | .raised e s1 => .raised e s1
    | none =>
        match doRebase s with
        | .ok _ s1 => .ok (.rebase n) s1
        | .raised e s1 => .raised e s1
  match inner with
  | .ok a s1 => .ok a s1
  | .raised _ s1 => .raised .rebaseFailed (logO s1 (.comment n "The rebase failed"))

/-- `findAndRebasePullRequestOnSameBase` (autorebase.ts lines 926-962). -/
def findAndRebasePullRequestOnSameBase (host : Host) (owner repo : String)
    (base : RefName) (label : LabelName) (s : OrchState) : OOut Action :=
  match findOldestPullRequest host owner repo ("base:" ++ base) label
      (fun i => i.mergeableState = .behind) s with
  | .raised e s1 => .raised e s1
  | .ok none s1 => .ok .nop s1
  | .ok (some pr) s1 => rebaseAction host (some label) pr.pullRequestNumber s1

/-- `autorebasePullRequest` (autorebase.ts lines 964-1017). -/
def autorebasePullRequest (host : Host) (forceRebase : Bool)
    (label : LabelName) (pr : PullRequestInfo) (s : OrchState) : OOut Action :=
  let shouldBeAutosquashed := host.needAutosquash pr.pullRequestNumber
  let shouldBeRebased :=
    forceRebase || shouldBeAutosquashed || pr.mergeableState = .behind
  if shouldBeRebased then rebaseAction host (some label) pr.pullRequestNumber s
  else if pr.mergeableState = .clean then
    mergeAction pr.head pr.pullRequestNumber s
  else .ok .nop s

/-- `rebaseOneTime` (autorebase.ts lines 1019-1063): look up the commenter's
permission; if the injected predicate authorizes it, rebase WITHOUT a label
(hence without the Label-Lock) and return the rebase action; otherwise post
a denial comment and return `deny-one-time-rebase`. -/
def rebaseOneTime (host : Host) (canRebaseOneTime : Permission → Bool)
    (n : Nat) (username : Username) (s : OrchState) : OOut Action :=
  let permission := host.permission username
  if canRebaseOneTime permission then
    match rebaseAction host none n s with
    | .ok _ s1 => .ok (.rebase n) s1
    | .raised e s1 => .raised e s1
  else
    .ok (.denyOneTimeRebase n)
      (logO s (.comment n "Rebase commands can only be submitted by collaborators with write permission on the repository."))

/-- The `check_run` / `status` branch of `autorebase` (lines 1109-1151). -/
def autorebaseSha (host : Host) (owner repo : String) (label : LabelName)
    (sha : Sha) (s : OrchState) : OOut Action :=
  match findAutorebaseablePullRequestMatchingSha host owner repo label sha s with
  | .raised e s1 => .raised e s1
  | .ok none s1 => .ok .nop s1
  | .ok (some pr) s1 =>
      if pr.mergeableState = .clean then
        mergeAction pr.head pr.pullRequestNumber s1
      else if pr.mergeableState = .blocked then
        findAndRebasePullRequestOnSameBase host owner repo pr.base label s1
      else .ok .nop s1

/-- `autorebase` (autorebase.ts lines 1065-1245), the event → action state
machine.  In the final `else` branch the source computes
`isAutorebaseSamePullRequestEvent`, `isRebasePullRequestOnSameBaseEvent` and
`isMergeEvent`; for a `pull_request_review` event the first two are false
and `isMergeEvent` is true WITHOUT consulting the review's `action` field,
and the merge guard checks only `labeledAndOpenedAndRebaseable`, not the
resolved mergeable state. -/
def autorebase (host : Host) (canRebaseOneTime : Permission → Bool)
    (forceRebase : Bool) (label : LabelName) (owner repo : String)
    (event : AEvent) (s : OrchState) : OOut Action :=
  match event with
  | .issueComment body username n isPullRequest =>
      if (jsTrim body = "/" ++ label || jsTrim body = "/rebase") && isPullRequest then
        rebaseOneTime host canRebaseOneTime n username s
      else .ok .nop s
  | .checkRun sha => autorebaseSha host owner repo label sha s
  | .status sha => autorebaseSha host owner repo label sha s
  | .pullRequest action payload =>
      let n := payload.number
      let isAutorebaseSamePullRequestEvent :=
        (match action with
          | .opened => true
          | .synchronize => true
          | .labeled name => name = label
          | .closed => false)
        && (payload.mergeable = some true || forceRebase)
        && payload.closedAt = none
      let isRebasePullRequestOnSameBaseEvent :=
        (match action with | .closed => true | _ => false) && payload.merged
      if isAutorebaseSamePullRequestEvent || isRebasePullRequestOnSameBaseEvent then
        match getPullRequestInfoWithKnownMergeableState host label n s with
        | .raised e s1 => .raised e s1
        | .ok info s1 =>
            if isAutorebaseSamePullRequestEvent
                && (forceRebase || info.labeledAndOpenedAndRebaseable) then
              autorebasePullRequest host forceRebase label info s1
            else if isRebasePullRequestOnSameBaseEvent then
              findAndRebasePullRequestOnSameBase host owner repo info.base label s1
            else if info.labeledAndOpenedAndRebaseable then
              mergeAction info.head n s1
            else .ok .nop s1
      else .ok .nop s
  | .pullRequestReview _ n =>
      match getPullRequestInfoWithKnownMergeableState host label n s with
      | .raised e s1 => .raised e s1
      | .ok info s1 =>
          if info.labeledAndOpenedAndRebaseable then
            mergeAction info.head n s1
          else .ok .nop s1

/-! ## Specification vocabulary and concrete fixtures -/

def OOut.valOf : OOut α → Option α
  | .ok v _ => some v
  | .raised _ _ => none

/-- The commit a `mergeAttempt` event was about, for stating which merge
calls a run performed. -/
def GEv.mergeCommit? : GEv → Option Sha
  | .mergeAttempt _ c => some c
  | _ => none

/-- Whether the first list is a leading segment of the second. -/
def leadSeg : List Char → List Char → Bool
  | [], _ => true
  | _ :: _, [] => false
  | a :: as, b :: bs => a == b && leadSeg as bs

/-- Whether `seg` occurs contiguously inside the second list. -/
def hasSeg (seg : List Char) : List Char → Bool
  | [] => leadSeg seg []
  | a :: rest => leadSeg seg (a :: rest) || hasSeg seg rest

/-- Whether an error message mentions a commit id: the id occurs as a
substring of the message. -/
def mentionsSha (msg sha : String) : Bool := hasSeg sha.data msg.data

/-- Pure description of the short-circuiting candidate scan: the info of the
first candidate (in order) whose derived info satisfies the predicate. -/
def firstMatchInfo (label : LabelName) (predicate : PullRequestInfo → Bool)
    (pay : Nat → PRPayload) : List Nat → Option PullRequestInfo
  | [] => none
  | n :: rest =>
      if predicate (getPullRequestInfo label (pay n)) then
        some (getPullRequestInfo label (pay n))
      else firstMatchInfo label predicate pay rest

/-- The prefix of a list up to and including the first element satisfying
`p` (the whole list when none does): the candidates whose details the scan
resolves. -/
def takeThrough (p : α → Bool) : List α → List α
  | [] => []
  | a :: as => if p a then [a] else a :: takeThrough p as

/-- The state after one successful `cherryPickCommit` of `c` on branch `r`:
the merge endpoint advanced `r` to a fresh merge commit, a fresh
single-parent commit was created, and `r` was force-updated to it. -/
def cherryStepState (c : Sha) (r : RefName) (s : GitState) : GitState :=
  ⟨(s.refs.map (fun p =>
      if p.1 = r then (p.1, "generated-" ++ toString s.fresh) else p)).map
      (fun p =>
        if p.1 = r then (p.1, "generated-" ++ toString (s.fresh + 1)) else p),
    s.fresh + 1 + 1,
    (s.log ++ [.mergeAttempt r c]) ++
      [.updateRef true r ("generated-" ++ toString (s.fresh + 1))]⟩

/-- A repository with one `feature` branch at tip `sha0`. -/
def gsFeature : GitState := ⟨[("feature", "sha0")], 0, []⟩

/-- Merge oracle under which commit `c1` applies cleanly and every other
commit conflicts. -/
def conflictAfterC1 : Sha → Option Sha :=
  fun c => if c = "c1" then some "tree1" else none

/-- Merge oracle that never conflicts. -/
def cleanOracle : Sha → Option Sha := fun _ => some "tree"

/-- Ancestry oracle that accepts every update as a fast-forward (cherry-picked
chains extend the tip they start from). -/
def allAnc : AncOracle := fun _ _ => true

/-- Ancestry oracle that rejects every non-identical update. -/
def noAnc : AncOracle := fun _ _ => false

/-- A repository with a `master` base and a `feature` head at `h0`. -/
def c3State : GitState := ⟨[("master", "m0"), ("feature", "h0")], 0, []⟩

/-- Pull request #1 from `feature` (head sha `h0` at record time) onto
`master`. -/
def c3PR : PRData := ⟨1, "master", "feature", "h0"⟩

/-- Concurrent interference: another process force-pushes `feature` to `h1`
while the rebase call is suspended. -/
def c3Intercept : Intercept :=
  fun refs => refs.map (fun p => if p.1 = "feature" then (p.1, "h1") else p)

/-- An open pull request whose mergeable state is still being computed. -/
def openUnknownPayload : PRPayload :=
  ⟨1, "master", "feature", "h0", none, [], none, .unknown, false, none⟩

/-- Fetch oracle for a pull request that stays open with an unknown mergeable
state forever. -/
def alwaysUnknown : Nat → PRPayload := fun _ => openUnknownPayload

/-- A labeled, open, mergeable pull request whose resolved mergeable state is
`behind`. -/
def behindPayload : PRPayload :=
  ⟨1, "master", "feature", "h0", none, ["autorebase"], some true, .behind, false,
    some true⟩

/-- A labeled, open pull request that the host reports as `mergeable` but NOT
`rebaseable`. -/
def mergeableNotRebaseablePayload : PRPayload :=
  ⟨1, "master", "feature", "h0", none, ["autorebase"], some true, .clean, false,
    some false⟩

/-- Fetch oracle whose first answer is still `unknown` and whose later
answers are resolved. -/
def c5Fetch : Nat → PRPayload :=
  fun n => if n = 0 then openUnknownPayload else behindPayload

/-- Search candidates #1 and #2 for the search fixtures. -/
def c6Pay1 : PRPayload :=
  ⟨1, "master", "f1", "s1", none, ["autorebase"], some true, .behind, false, none⟩

def c6Pay2 : PRPayload :=
  ⟨2, "master", "f2", "s2", none, ["autorebase"], some true, .behind, false, none⟩

def c6Pay : Nat → PRPayload := fun n => if n = 1 then c6Pay1 else c6Pay2

/-- Host whose search answers two pages `[[1], [2]]` of candidates. -/
def c6Host : Host :=
  ⟨fun _ => [[1], [2]], fun n _ => c6Pay n, fun _ => .noAccess, fun _ => false,
    fun _ => true⟩

/-- Host whose pull-request fetches resolve to `behindPayload`. -/
def c4Host : Host :=
  ⟨fun _ => [], fun _ _ => behindPayload, fun _ => .noAccess, fun _ => false,
    fun _ => true⟩

/-- Host granting admin permission to every user, with a succeeding
`rebasePullRequest`. -/
def c10Host : Host :=
  ⟨fun _ => [], fun _ _ => behindPayload, fun _ => .admin, fun _ => false,
    fun _ => true⟩

/-- The `canRebaseOneTime` predicate injected in production: admins only in
this fixture. -/
def onlyAdmins : Permission → Bool := fun p => decide (p = .admin)

/-- The always-true candidate predicate used in the search fixtures. -/
def anyPR : PullRequestInfo → Bool := fun _ => true

/-- Orchestration state with no labels anywhere and an empty log. -/
def emptyOrch : OrchState := ⟨[], []⟩

/-- Orchestration state where pull request #1 carries the `autorebase`
label. -/
def lockedOrch : OrchState := ⟨[(1, ["autorebase"])], []⟩

/-- A guarded action that raises (a failing `rebasePullRequest`) without any
effect of its own. -/
def throwingAction : OrchState → OOut Unit := fun s => .raised .rebaseError s

/-! ## Toolkit lemmas -/

theorem find?_filter_key {α β : Type} [DecidableEq α] (t r : α) (h : r ≠ t) :
    ∀ l : List (α × β),
      (l.filter (fun p => p.1 ≠ t)).find? (fun p => p.1 = r) =
        l.find? (fun p => p.1 = r)
  | [] => rfl
  | a :: l => by
      by_cases hat : a.1 = t
      · rw [List.filter_cons, if_neg (by simp [hat]),
          List.find?_cons_of_neg _ (by simp [hat, Ne.symm h]),
          find?_filter_key t r h l]
      · by_cases har : a.1 = r
        · rw [List.filter_cons, if_pos (by simp [hat]),
            List.find?_cons_of_pos _ (by simp [har]),
            List.find?_cons_of_pos _ (by simp [har])]
        · rw [List.filter_cons, if_pos (by simp [hat]),
            List.find?_cons_of_neg _ (by simp [har]),
            List.find?_cons_of_neg _ (by simp [har]),
            find?_filter_key t r h l]

theorem find?_map_keep {α β : Type} [DecidableEq α] (f : α × β → α × β)
    (hf : ∀ p, (f p).1 = p.1) (r : α) (l : List (α × β)) :
    (l.map f).find? (fun p => p.1 = r) = (l.find? (fun p => p.1 = r)).map f := by
  rw [List.find?_map]
  have hp : ((fun p : α × β => decide (p.1 = r)) ∘ f)
      = (fun p : α × β => decide (p.1 = r)) := by
    funext p; simp [Function.comp, hf]
  rw [hp]

theorem lookupRef_logEv (s : GitState) (e : GEv) (r : RefName) :
    lookupRef (logEv s e) r = lookupRef s r := rfl

theorem refNames_logEv (s : GitState) (e : GEv) :
    refNames (logEv s e) = refNames s := rfl

theorem refNames_setRef (s : GitState) (q : RefName) (v : Sha) :
    refNames (setRef s q v) = refNames s := by
  simp only [refNames, setRef, List.map_map]
  refine List.map_congr_left (fun p _ => ?_)
  by_cases h : p.1 = q <;> simp [h]

theorem lookupRef_setRef_ne (s : GitState) (q r : RefName) (v : Sha)
    (h : r ≠ q) : lookupRef (setRef s q v) r = lookupRef s r := by
  have hf : ∀ p : RefName × Sha,
      ((fun p => if p.1 = q then (p.1, v) else p) p).1 = p.1 := by
    intro p; by_cases h : p.1 = q <;> simp [h]
  simp only [lookupRef, setRef, find?_map_keep _ hf r s.refs]
  cases hfind : s.refs.find? (fun p => p.1 = r) with
  | none => rfl
  | some p =>
      have hp : p.1 = r := by
        have := List.find?_some hfind
        simpa using this
      simp [hp, h]

theorem lookupRef_setRef_self (s : GitState) (r : RefName) (v : Sha)
    (h : (lookupRef s r).isSome) : lookupRef (setRef s r v) r = some v := by
  have hf : ∀ p : RefName × Sha,
      ((fun p => if p.1 = r then (p.1, v) else p) p).1 = p.1 := by
    intro p; by_cases h : p.1 = r <;> simp [h]
  simp only [lookupRef, setRef, find?_map_keep _ hf r s.refs]
  cases hfind : s.refs.find? (fun p => p.1 = r) with
  | none => simp [lookupRef, hfind] at h
  | some p =>
      have hp : p.1 = r := by
        have := List.find?_some hfind
        simpa using this
      simp [hp]

theorem mem_refNames_iff (s : GitState) (r : RefName) :
    r ∈ refNames s ↔ (lookupRef s r).isSome := by
  simp only [refNames, lookupRef, List.mem_map]
  cases hfind : s.refs.find? (fun p => p.1 = r) with
  | none =>
      rw [List.find?_eq_none] at hfind
      simp only [Option.map_none', Option.isSome_none]
      constructor
      · rintro ⟨p, hp, hr⟩
        exact absurd (by simpa using hr) (by simpa using hfind p hp)
      · intro h; cases h
  | some p =>
      have hp : p.1 = r := by simpa using List.find?_some hfind
      simp only [Option.map_some', Option.isSome_some, iff_true]
      exact ⟨p, List.mem_of_find?_eq_some hfind, hp⟩

theorem lookupRef_delete (s : GitState) (t r : RefName) (h : r ≠ t) :
    lookupRef { s with refs := s.refs.filter (fun p => p.1 ≠ t) } r =
      lookupRef s r := by
  simp only [lookupRef, find?_filter_key t r h]

theorem labelsOf_logO (s : OrchState) (e : OEv) (n : Nat) :
    labelsOf (logO s e) n = labelsOf s n := rfl

theorem labelsOf_setLabels_self (s : OrchState) (n : Nat) (ls : List LabelName) :
    labelsOf (setLabels s n ls) n = ls := by
  simp [labelsOf, setLabels, List.find?]

theorem labelsOf_setLabels_ne (s : OrchState) (n m : Nat) (ls : List LabelName)
    (h : m ≠ n) : labelsOf (setLabels s n ls) m = labelsOf s m := by
  simp only [labelsOf, setLabels]
  rw [List.find?_cons_of_neg _ (by simp [Ne.symm h]), find?_filter_key n m h]

/-! ## C9: the derived attribute `labeledAndOpenedAndRebaseable` -/

/-- C9 (counterexample): the claim states that `labeledAndOpenedAndRebaseable`
requires the host-computed `rebaseable` flag to be true.  On a labeled, open
payload whose `rebaseable` flag is `false` but whose `mergeable` flag is
`true`, `getPullRequestInfo` still sets the attribute to `true`: the code
consults `mergeable`, not `rebaseable`. -/
theorem getPullRequestInfo_rebaseable_cex :
    (getPullRequestInfo "autorebase"
        mergeableNotRebaseablePayload).labeledAndOpenedAndRebaseable = true
    ∧ mergeableNotRebaseablePayload.rebaseable = some false := ⟨rfl, rfl⟩

/-- C9 (amended): `labeledAndOpenedAndRebaseable` equals: the configured
label is present ∧ `closedAt` is null ∧ the host-computed `mergeable` flag is
true (the `rebaseable` flag is not consulted). -/
theorem getPullRequestInfo_attribute (label : LabelName) (p : PRPayload) :
    (getPullRequestInfo label p).labeledAndOpenedAndRebaseable = true ↔
      (label ∈ p.labels ∧ p.closedAt = none ∧ p.mergeable = some true) := by
  simp only [getPullRequestInfo, Bool.and_eq_true, decide_eq_true_eq, and_assoc]
  rw [List.contains_iff_exists_mem_beq]
  constructor
  · rintro ⟨⟨x, hx, hbeq⟩, h2, h3⟩
    exact ⟨by rwa [show x = label from (by simpa using hbeq : label = x).symm] at hx,
      h2, h3⟩
  · rintro ⟨h1, h2, h3⟩
    exact ⟨⟨label, h1, by simp⟩, h2, h3⟩

/-! ## C5: the Mergeable-State Resolver -/

theorem promiseRetryGo_ok {ε α : Type} (f : Nat → Except ε α) (mt fa : Nat) :
    ∀ (r attempt : Nat) (ds : List Nat) (x : α) (ds2 : List Nat),
      promiseRetryGo f mt fa attempt r ds = .ok (x, ds2) →
      (∃ m, f m = .ok x) ∧ ∀ d ∈ ds2, d ∈ ds ∨ ∃ k, d = mt * fa ^ k
  | 0, attempt, ds, x, ds2 => by
      cases hf : f attempt with
      | ok a =>
          intro h
          simp only [promiseRetryGo, hf, Except.map] at h
          obtain ⟨rfl, rfl⟩ : a = x ∧ ds = ds2 := by
            refine ⟨?_, ?_⟩ <;> cases h <;> rfl
          exact ⟨⟨attempt, hf⟩, fun d hd => Or.inl hd⟩
      | error e =>
          intro h
          simp [promiseRetryGo, hf, Except.map] at h
  | r + 1, attempt, ds, x, ds2 => by
      cases hf : f attempt with
      | ok a =>
          intro h
          simp only [promiseRetryGo, hf] at h
          obtain ⟨rfl, rfl⟩ : a = x ∧ ds = ds2 := by
            refine ⟨?_, ?_⟩ <;> cases h <;> rfl
          exact ⟨⟨attempt, hf⟩, fun d hd => Or.inl hd⟩
      | error e =>
          intro h
          simp only [promiseRetryGo, hf] at h
          obtain ⟨hex, hmem⟩ :=
            promiseRetryGo_ok f mt fa r (attempt + 1)
              (ds ++ [mt * fa ^ attempt]) x ds2 h
          refine ⟨hex, fun d hd => ?_⟩
          rcases hmem d hd with hin | hk
          · rcases List.mem_append.mp hin with hin | hin
            · exact Or.inl hin
            · exact Or.inr ⟨attempt, by simpa using hin⟩
          · exact Or.inr hk

/-- C5 (amended): every snapshot `waitForKnownMergeableState` returns has a
known mergeable state (or is closed), and every delay it waited between
retries is at least 500 ms (the delays are `500 * 2 ^ k`). -/
theorem waitForKnownMergeableState_ok (fetch : Nat → PRPayload)
    (p : PRPayload) (ds : List Nat)
    (h : waitForKnownMergeableState fetch = .ok (p, ds)) :
    (p.closedAt ≠ none ∨ p.mergeableState ≠ .unknown) ∧ ∀ d ∈ ds, 500 ≤ d := by
  rw [waitForKnownMergeableState, promiseRetry] at h
  obtain ⟨⟨m, hm⟩, hds⟩ := promiseRetryGo_ok _ 500 2 10 0 [] p ds h
  constructor
  · simp only [checkKnownMergeableState] at hm
    by_cases hk : isMergeableStateKnown (fetch m)
    · rw [if_pos hk] at hm
      cases hm
      simpa [isMergeableStateKnown, Decidable.or_iff_not_imp_left] using hk
    · rw [if_neg hk] at hm
      cases hm
  · intro d hd
    rcases hds d hd with hin | ⟨k, rfl⟩
    · simp at hin
    · calc (500 : Nat) = 500 * 1 := (mul_one 500).symm
        _ ≤ 500 * 2 ^ k := Nat.mul_le_mul (le_refl 500) Nat.one_le_two_pow

/-- C5 (witness): a fetch whose first answer is `unknown` and whose second is
resolved makes the resolver return the resolved snapshot after one 500 ms
delay. -/
theorem waitForKnownMergeableState_ok_witness :
    (behindPayload.closedAt ≠ none ∨ behindPayload.mergeableState ≠ .unknown)
    ∧ ∀ d ∈ [500], 500 ≤ d :=
  waitForKnownMergeableState_ok c5Fetch behindPayload [500] rfl

/-- C5 (counterexample): the claim states the resolver retries indefinitely
by default, never giving up with an error on an open, still-unknown pull
request.  With the `promise-retry` defaults (`retries = 10`) the embedded
resolver exhausts its 10 retries on a pull request that stays open and
`unknown` and rejects with the assertion error instead of retrying
forever. -/
theorem waitForKnownMergeableState_gives_up_cex :
    waitForKnownMergeableState alwaysUnknown = .error .assertionFailed := rfl

/-! ## C1 and C7: the Label-Lock -/

/-- C1 (counterexample): the claim states the label is re-added even when the
guarded action throws.  On a pull request holding the label, with a guarded
action that raises, `withLabelLock` propagates the error and the label is NOT
present afterwards: the source has no `try`/`finally` around the action (and
the repository's own test expects the label to be absent after a failed
rebase). -/
theorem withLabelLock_no_release_on_raise_cex :
    (withLabelLock throwingAction "autorebase" 1 lockedOrch).isRaised = true
    ∧ "autorebase" ∉
        labelsOf (withLabelLock throwingAction "autorebase" 1 lockedOrch).state 1 := by
  refine ⟨rfl, ?_⟩
  intro hmem
  simp [withLabelLock, throwingAction, removeLabel, lockedOrch, labelsOf,
    setLabels, logO, OOut.state, List.find?] at hmem

/-- C1 (amended): when acquisition succeeds, the label is re-added exactly
when the guarded action completes without raising; when the action raises,
the error propagates and the outcome state is precisely the action's final
state — no label re-add is performed on that path. -/
theorem withLabelLock_release_iff_action_succeeds
    (act : OrchState → OOut Unit) (l : LabelName) (n : Nat) (s : OrchState)
    (h : l ∈ labelsOf s n) :
    (∀ s2,
      act (setLabels (logO s (.removeLabel n l true)) n ((labelsOf s n).erase l)) =
          .ok () s2 →
        withLabelLock act l n s =
          .ok true (setLabels (logO s2 (.addLabel n l)) n
            (if l ∈ labelsOf s2 n then labelsOf s2 n else labelsOf s2 n ++ [l]))
        ∧ l ∈ labelsOf (withLabelLock act l n s).state n)
    ∧ ∀ e s2,
      act (setLabels (logO s (.removeLabel n l true)) n ((labelsOf s n).erase l)) =
          .raised e s2 →
        withLabelLock act l n s = .raised e s2 := by
  constructor
  · intro s2 hact
    have heq : withLabelLock act l n s =
        .ok true (setLabels (logO s2 (.addLabel n l)) n
          (if l ∈ labelsOf s2 n then labelsOf s2 n else labelsOf s2 n ++ [l])) := by
      rw [withLabelLock, removeLabel, if_pos h]
      dsimp only
      rw [hact]
      dsimp only
      rw [addLabels]
    refine ⟨heq, ?_⟩
    rw [heq]
    simp only [OOut.state, labelsOf_setLabels_self]
    by_cases hmem : l ∈ labelsOf s2 n
    · simp [hmem]
    · simp [hmem]
  · intro e s2 hact
    rw [withLabelLock, removeLabel, if_pos h]
    dsimp only
    rw [hact]

/-- C1 (witness): on a pull request holding the label, a raising action makes
`withLabelLock` propagate the raise with the action's own final state. -/
theorem withLabelLock_release_iff_action_succeeds_witness :
    "autorebase" ∈ labelsOf lockedOrch 1
    ∧ withLabelLock throwingAction "autorebase" 1 lockedOrch =
        .raised .rebaseError
          (setLabels (logO lockedOrch (.removeLabel 1 "autorebase" true)) 1
            (["autorebase"].erase "autorebase")) :=
  ⟨by decide,
    (withLabelLock_release_iff_action_succeeds throwingAction "autorebase" 1
        lockedOrch (by decide)).2 .rebaseError _ rfl⟩

/-- C7: when the label-removal call fails because the label is absent, the
lock is treated as held by another run: the guarded action is never run, the
labels are untouched, the only remote call is the failed removal, and the
Decision Engine's `rebase` returns `abort` immediately. -/
theorem rebaseAction_abort_on_lock_contention
    (host : Host) (l : LabelName) (n : Nat) (s : OrchState)
    (hne : l ≠ "") (h : l ∉ labelsOf s n) :
    rebaseAction host (some l) n s = .ok (.abort n) (logO s (.removeLabel n l false))
    ∧ (logO s (.removeLabel n l false)).prLabels = s.prLabels
    ∧ (logO s (.removeLabel n l false)).log = s.log ++ [.removeLabel n l false] := by
  refine ⟨?_, rfl, rfl⟩
  rw [rebaseAction]
  simp only [hne, if_false, withLabelLock, removeLabel, if_neg h]

/-- C7 (witness): with no label on pull request #1, the rebase action aborts
with only the failed removal call in the log. -/
theorem rebaseAction_abort_on_lock_contention_witness :
    rebaseAction c10Host (some "autorebase") 1 emptyOrch =
      .ok (.abort 1) (logO emptyOrch (.removeLabel 1 "autorebase" false))
    ∧ (logO emptyOrch (.removeLabel 1 "autorebase" false)).prLabels = emptyOrch.prLabels
    ∧ (logO emptyOrch (.removeLabel 1 "autorebase" false)).log =
        emptyOrch.log ++ [.removeLabel 1 "autorebase" false] :=
  rebaseAction_abort_on_lock_contention c10Host "autorebase" 1 emptyOrch
    (by decide) (by decide)

/-! ## C10: the one-time rebase command -/

/-- C10: for an `issue_comment` event whose trimmed body is the rebase
command on a pull request, with an author authorized by the injected
predicate, the one-time path rebases WITHOUT the Label-Lock: the outcome is
fully characterized by the rebase result (rebase action on success, a raised
"rebase failed" after a comment on failure), the per-pull-request labels are
untouched, no label event is emitted, and the returned action is never
`abort`. -/
theorem autorebase_one_time_rebase_no_lock
    (host : Host) (canR : Permission → Bool) (force : Bool) (label : LabelName)
    (owner repo : String) (body : String) (user : Username) (n : Nat)
    (s : OrchState)
    (hbody : jsTrim body = "/" ++ label ∨ jsTrim body = "/rebase")
    (hperm : canR (host.permission user) = true) :
    autorebase host canR force label owner repo
        (.issueComment body user n true) s =
      (if host.rebaseOk n then .ok (.rebase n) (logO s (.rebaseCall n))
       else .raised .rebaseFailed
         (logO (logO s (.rebaseCall n)) (.comment n "The rebase failed")))
    ∧ (autorebase host canR force label owner repo
        (.issueComment body user n true) s).state.prLabels = s.prLabels
    ∧ ∀ m t, autorebase host canR force label owner repo
        (.issueComment body user n true) s ≠ .ok (.abort m) t := by
  have hrun : autorebase host canR force label owner repo
      (.issueComment body user n true) s =
      (if host.rebaseOk n then .ok (.rebase n) (logO s (.rebaseCall n))
       else .raised .rebaseFailed
         (logO (logO s (.rebaseCall n)) (.comment n "The rebase failed"))) := by
    rcases hbody with h | h <;>
    · simp only [autorebase, h, rebaseOneTime, hperm, rebaseAction]
      by_cases hr : host.rebaseOk n <;> simp [hr]
  refine ⟨hrun, ?_, ?_⟩
  · rw [hrun]
    by_cases hr : host.rebaseOk n <;> simp [hr, OOut.state, logO]
  · intro m t hcontra
    rw [hrun] at hcontra
    by_cases hr : host.rebaseOk n <;> simp [hr] at hcontra

/-- C10 (witness): an authorized `/rebase` comment on pull request #1, with a
succeeding underlying rebase, yields the rebase action with only the rebase
call logged. -/
theorem autorebase_one_time_rebase_no_lock_witness :
    (autorebase c10Host onlyAdmins false "autorebase" "o" "r"
        (.issueComment "/rebase" "alice" 1 true) emptyOrch =
      (if c10Host.rebaseOk 1 then
        .ok (.rebase 1) (logO emptyOrch (.rebaseCall 1))
       else .raised .rebaseFailed
         (logO (logO emptyOrch (.rebaseCall 1)) (.comment 1 "The rebase failed"))))
    ∧ (autorebase c10Host onlyAdmins false "autorebase" "o" "r"
        (.issueComment "/rebase" "alice" 1 true) emptyOrch).state.prLabels =
        emptyOrch.prLabels
    ∧ ∀ m t, autorebase c10Host onlyAdmins false "autorebase" "o" "r"
        (.issueComment "/rebase" "alice" 1 true) emptyOrch ≠ .ok (.abort m) t :=
  autorebase_one_time_rebase_no_lock c10Host onlyAdmins false "autorebase"
    "o" "r" "/rebase" "alice" 1 emptyOrch (Or.inr (by decide)) rfl

/-! ## C4: `pull_request_review` events -/

/-- C4 (counterexample): the claim states a merge is returned only when the
resolved mergeable state is `clean`.  On a submitted review for a labeled,
open, mergeable pull request whose resolved mergeable state is `behind`, the
Decision Engine still returns a merge action: the third `autorebase` checks
neither the review action nor the resolved mergeable state on this path. -/
theorem autorebase_review_nonclean_merge_cex :
    (autorebase c4Host onlyAdmins false "autorebase" "o" "r"
        (.pullRequestReview .submitted 1) emptyOrch).valOf = some (.merge 1)
    ∧ behindPayload.mergeableState = .behind
    ∧ (getPullRequestInfo "autorebase"
        behindPayload).labeledAndOpenedAndRebaseable = true :=
  ⟨rfl, rfl, rfl⟩

/-- C4 (amended): for every `pull_request_review` event (whatever its review
action), once the fresh fetch resolves to payload `p`, the Decision Engine
merges if and only if `p` is labeled ∧ open ∧ mergeable
(`labeledAndOpenedAndRebaseable`); the resolved mergeable state is not
consulted, so non-`clean` states are merged too. -/
theorem autorebase_review_merge_iff_labeled
    (host : Host) (canR : Permission → Bool) (force : Bool) (label : LabelName)
    (owner repo : String) (ract : ReviewAction) (n : Nat) (s : OrchState)
    (p : PRPayload) (ds : List Nat)
    (h : waitForKnownMergeableState (host.fetchPR n) = .ok (p, ds)) :
    autorebase host canR force label owner repo (.pullRequestReview ract n) s =
      (if (getPullRequestInfo label p).labeledAndOpenedAndRebaseable then
        .ok (.merge n)
          { s with log := s.log ++ [.fetchDetails n, .prMerge n,
              .deleteBranch (getPullRequestInfo label p).head] }
      else .ok .nop (logO s (.fetchDetails n))) := by
  simp only [autorebase, getPullRequestInfoWithKnownMergeableState, h]
  by_cases hl : (getPullRequestInfo label p).labeledAndOpenedAndRebaseable
  · rw [if_pos hl, if_pos hl]
    simp [mergeAction, logO, List.append_assoc]
  · rw [if_neg hl, if_neg hl]

/-- C4 (witness): the amended characterization applied to a host resolving
pull request #1 to a labeled, open, mergeable, `behind` payload. -/
theorem autorebase_review_merge_iff_labeled_witness :
    autorebase c4Host onlyAdmins false "autorebase" "o" "r"
        (.pullRequestReview .submitted 1) emptyOrch =
      (if (getPullRequestInfo "autorebase"
            behindPayload).labeledAndOpenedAndRebaseable then
        .ok (.merge 1)
          { emptyOrch with log := emptyOrch.log ++ [.fetchDetails 1, .prMerge 1,
              .deleteBranch (getPullRequestInfo "autorebase" behindPayload).head] }
      else .ok .nop (logO emptyOrch (.fetchDetails 1))) :=
  autorebase_review_merge_iff_labeled c4Host onlyAdmins false "autorebase"
    "o" "r" .submitted 1 emptyOrch behindPayload [] rfl

/-! ## C6: Pull-Request Search & Selection -/

theorem findOldestGo_spec (host : Host) (label : LabelName)
    (predicate : PullRequestInfo → Bool) (pay : Nat → PRPayload)
    (dl : Nat → List Nat) :
    ∀ (nums : List Nat) (s : OrchState),
      (∀ n ∈ nums,
        waitForKnownMergeableState (host.fetchPR n) = .ok (pay n, dl n)) →
      findOldestGo host label predicate nums s =
        .ok (firstMatchInfo label predicate pay nums)
          { s with log := s.log ++
              (takeThrough (fun n => predicate (getPullRequestInfo label (pay n)))
                nums).map .fetchDetails }
  | [], s, _ => by
      simp [findOldestGo, firstMatchInfo, takeThrough]
  | n :: rest, s, h => by
      have hn := h n (by simp)
      have hrest : ∀ m ∈ rest,
          waitForKnownMergeableState (host.fetchPR m) = .ok (pay m, dl m) :=
        fun m hm => h m (by simp [hm])
      simp only [findOldestGo, getPullRequestInfoWithKnownMergeableState, hn]
      by_cases hp : predicate (getPullRequestInfo label (pay n)) = true
      · simp [firstMatchInfo, takeThrough, hp, logO]
      · simp only [hp, if_false, Bool.false_eq_true]
        rw [findOldestGo_spec host label predicate pay dl rest
          (logO s (.fetchDetails n)) hrest]
        simp [firstMatchInfo, takeThrough, hp, logO, List.append_assoc]

theorem firstMatchInfo_min (label : LabelName)
    (predicate : PullRequestInfo → Bool) (pay : Nat → PRPayload)
    (created : Nat → Nat) :
    ∀ nums : List Nat,
      nums.Pairwise (fun a b => created a ≤ created b) →
      ∀ i, firstMatchInfo label predicate pay nums = some i →
        ∃ n, n ∈ nums ∧ i = getPullRequestInfo label (pay n) ∧
          predicate i = true ∧
          ∀ m ∈ nums, predicate (getPullRequestInfo label (pay m)) = true →
            created n ≤ created m
  | [], _, i, h => by simp [firstMatchInfo] at h
  | n :: rest, hpw, i, h => by
      obtain ⟨hhead, htail⟩ := List.pairwise_cons.mp hpw
      by_cases hp : predicate (getPullRequestInfo label (pay n)) = true
      · rw [firstMatchInfo, if_pos hp] at h
        obtain rfl : getPullRequestInfo label (pay n) = i := by
          simpa using h
        refine ⟨n, by simp, rfl, hp, ?_⟩
        intro m hm _
        rcases List.mem_cons.mp hm with rfl | hm2
        · exact le_refl _
        · exact hhead m hm2
      · rw [firstMatchInfo, if_neg hp] at h
        obtain ⟨n2, hn2, hi, hpi, hmin⟩ :=
          firstMatchInfo_min label predicate pay created rest htail i h
        refine ⟨n2, by simp [hn2], hi, hpi, ?_⟩
        intro m hm hpm
        rcases List.mem_cons.mp hm with rfl | hm2
        · exact absurd hpm hp
        · exact hmin m hm2 hpm

/-- C6 (counterexample): the claim states the search returns on the first
match without fetching any later page.  With two result pages whose very
first candidate matches, the run still fetches the second page (the source
paginates eagerly with `octokit.paginate` before scanning), although it does
not fetch the details of the later candidate. -/
theorem findOldestPullRequest_fetches_all_pages_cex :
    (findOldestPullRequest c6Host "o" "r" "" "autorebase" anyPR
        emptyOrch).valOf = some (some (getPullRequestInfo "autorebase" c6Pay1))
    ∧ OEv.fetchPage (searchQuery "o" "r" "autorebase" "") 1 ∈
        (findOldestPullRequest c6Host "o" "r" "" "autorebase" anyPR
          emptyOrch).state.log
    ∧ OEv.fetchDetails 2 ∉
        (findOldestPullRequest c6Host "o" "r" "" "autorebase" anyPR
          emptyOrch).state.log := by
  refine ⟨rfl, by decide, by decide⟩

/-- C6 (amended): the search fetches EVERY page of results up front, then
scans the concatenated candidates in order, resolving details only until the
first match (no later candidate's details are fetched), and returns the first
— hence, when the search index orders candidates by ascending creation time,
the oldest — matching pull request, or none. -/
theorem findOldestPullRequest_spec (host : Host) (owner repo q label : String)
    (predicate : PullRequestInfo → Bool) (s : OrchState)
    (pay : Nat → PRPayload) (dl : Nat → List Nat) (created : Nat → Nat)
    (query : String) (pages : List (List Nat)) (nums : List Nat)
    (hq : query = searchQuery owner repo label q)
    (hpages : pages = host.search query)
    (hnums : nums = pages.flatten)
    (hpay : ∀ n ∈ nums,
      waitForKnownMergeableState (host.fetchPR n) = .ok (pay n, dl n))
    (hsort : nums.Pairwise (fun a b => created a ≤ created b)) :
    findOldestPullRequest host owner repo q label predicate s =
      .ok (firstMatchInfo label predicate pay nums)
        { s with log := s.log
            ++ (List.range pages.length).map (fun i => .fetchPage query i)
            ++ (takeThrough (fun n => predicate (getPullRequestInfo label (pay n)))
                nums).map .fetchDetails }
    ∧ ∀ i, firstMatchInfo label predicate pay nums = some i →
        ∃ n, n ∈ nums ∧ i = getPullRequestInfo label (pay n) ∧
          predicate i = true ∧
          ∀ m ∈ nums, predicate (getPullRequestInfo label (pay m)) = true →
            created n ≤ created m := by
  subst hq
  subst hpages
  subst hnums
  constructor
  · simp only [findOldestPullRequest]
    rw [findOldestGo_spec host label predicate pay dl _ _ hpay]
  · exact firstMatchInfo_min label predicate pay created _ hsort

/-- C6 (witness): the characterization applied to a host answering two pages
`[[1], [2]]` of candidates that all resolve immediately. -/
theorem findOldestPullRequest_spec_witness :
    (findOldestPullRequest c6Host "o" "r" "" "autorebase" anyPR emptyOrch =
      .ok (firstMatchInfo "autorebase" anyPR c6Pay [1, 2])
        { emptyOrch with log :=
            (emptyOrch.log ++
              (List.range 2).map
                (fun i => OEv.fetchPage (searchQuery "o" "r" "autorebase" "") i) ++
              (takeThrough
                (fun n => anyPR (getPullRequestInfo "autorebase" (c6Pay n)))
                [1, 2]).map OEv.fetchDetails) })
    ∧ ∀ i, firstMatchInfo "autorebase" anyPR c6Pay [1, 2] = some i →
        ∃ n, n ∈ [1, 2] ∧ i = getPullRequestInfo "autorebase" (c6Pay n) ∧
          anyPR i = true ∧
          ∀ m ∈ [1, 2], anyPR (getPullRequestInfo "autorebase" (c6Pay m)) = true →
            n ≤ m :=
  findOldestPullRequest_spec c6Host "o" "r" "" "autorebase" anyPR emptyOrch
    c6Pay (fun _ => []) id (searchQuery "o" "r" "autorebase" "") [[1], [2]]
    [1, 2] rfl rfl rfl
    (by
      intro n hn
      rcases List.mem_cons.mp hn with rfl | hn2
      · rfl
      · rcases List.mem_cons.mp hn2 with rfl | hn3
        · rfl
        · exact absurd hn3 (List.not_mem_nil n))
    (by decide)

/-! ## C8, C2, C3: the CherryPick and Rebase engines -/

theorem lookupRef_eq_none (s : GitState) (r : RefName) (h : r ∉ refNames s) :
    lookupRef s r = none := by
  cases hl : lookupRef s r with
  | none => rfl
  | some v =>
      exact absurd ((mem_refNames_iff s r).mpr (by simp [hl])) h

theorem lookupRef_filter_self (s : GitState) (t : RefName) :
    lookupRef { s with refs := s.refs.filter (fun p => p.1 ≠ t) } t = none := by
  simp only [lookupRef]
  rw [show (List.find? (fun p => p.1 = t)
      (s.refs.filter (fun p => p.1 ≠ t))) = none from List.find?_eq_none.mpr ?_]
  · rfl
  · intro x hx
    have := List.of_mem_filter hx
    simpa using this

theorem lookupRef_filter_ne (s : GitState) (t r : RefName) (h : r ≠ t) :
    lookupRef { s with refs := s.refs.filter (fun p => p.1 ≠ t) } r =
      lookupRef s r :=
  lookupRef_delete s t r h

theorem lookupRef_cons_ne (s : GitState) (a : RefName × Sha) (fr : Nat)
    (lg : List GEv) (q : RefName) (h : q ≠ a.1) :
    lookupRef ⟨a :: s.refs, fr, lg⟩ q = lookupRef s q := by
  simp only [lookupRef]
  rw [List.find?_cons_of_neg _ (by simp [Ne.symm h])]

theorem fetchReferenceSha_some (s : GitState) (r : RefName) (sha : Sha)
    (h : lookupRef s r = some sha) : fetchReferenceSha s r = .ok sha s := by
  rw [fetchReferenceSha, h]

theorem applyIntercept_id (s : GitState) : applyIntercept id s = s := rfl

theorem createReference_not_mem (s : GitState) (r : RefName) (sha : Sha)
    (h : r ∉ refNames s) :
    createReference s r sha =
      .ok () ⟨(r, sha) :: s.refs, s.fresh, s.log ++ [.createRef r sha]⟩ := by
  rw [createReference]
  exact if_neg h

theorem deleteReference_mem (s : GitState) (r : RefName)
    (h : r ∈ refNames s) :
    deleteReference s r =
      .ok () ⟨s.refs.filter (fun p => p.1 ≠ r), s.fresh,
        s.log ++ [.deleteRef r]⟩ := by
  rw [deleteReference]
  exact if_pos h

theorem updateReference_ff_same (anc : AncOracle) (s : GitState) (r : RefName)
    (sha : Sha) (h : lookupRef s r = some sha) :
    updateReference anc false s r sha =
      .ok () (setRef (logEv s (.updateRef false r sha)) r sha) := by
  rw [updateReference]
  have h2 : lookupRef (logEv s (.updateRef false r sha)) r = some sha := h
  rw [h2]
  simp

theorem updateReference_force (anc : AncOracle) (s : GitState) (r : RefName)
    (sha cur : Sha) (h : lookupRef s r = some cur) :
    updateReference anc true s r sha =
      .ok () (setRef (logEv s (.updateRef true r sha)) r sha) := by
  rw [updateReference]
  have h2 : lookupRef (logEv s (.updateRef true r sha)) r = some cur := h
  rw [h2]
  simp

/-- C8 (amended): on an empty commit list, `cherryPickCommits` returns the
starting tip and leaves the tip of every reference as it was (the target
update is a same-sha fast-forward no-op); however it is not mutation-free:
it creates the temporary reference, issues the update call on the target,
and deletes the temporary reference. -/
theorem cherryPickCommits_empty (mo : MergeOracle) (anc : AncOracle)
    (s : GitState) (head : RefName) (sha0 : Sha)
    (h0 : lookupRef s head = some sha0)
    (h1 : tempName s ("cherry-pick-" ++ head) ∉ refNames s) :
    (cherryPickCommits mo anc id [] head s).valOf = some sha0
    ∧ (∀ q, lookupRef (cherryPickCommits mo anc id [] head s).state q =
        lookupRef s q)
    ∧ (cherryPickCommits mo anc id [] head s).state.log = s.log ++
        [.createRef (tempName s ("cherry-pick-" ++ head)) sha0,
         .updateRef false head sha0,
         .deleteRef (tempName s ("cherry-pick-" ++ head))] := by
  have hheadmem : (lookupRef s head).isSome := by rw [h0]; rfl
  have hne : tempName s ("cherry-pick-" ++ head) ≠ head := by
    intro he
    exact h1 (by rw [he]; exact (mem_refNames_iff s head).mpr hheadmem)
  have h1b : tempName s ("cherry-pick-" ++ head) ∉
      refNames { s with fresh := s.fresh + 1 } := h1
  have hlook : lookupRef
      ⟨(tempName s ("cherry-pick-" ++ head), sha0) :: s.refs, s.fresh + 1,
        s.log ++ [.createRef (tempName s ("cherry-pick-" ++ head)) sha0]⟩
      head = some sha0 := by
    rw [lookupRef_cons_ne s _ _ _ head (Ne.symm hne)]
    exact h0
  have hmem2 : tempName s ("cherry-pick-" ++ head) ∈
      refNames (setRef (logEv
        ⟨(tempName s ("cherry-pick-" ++ head), sha0) :: s.refs, s.fresh + 1,
          s.log ++ [.createRef (tempName s ("cherry-pick-" ++ head)) sha0]⟩
        (.updateRef false head sha0)) head sha0) := by
    rw [refNames_setRef, refNames_logEv]
    simp [refNames]
  have hrun : cherryPickCommits mo anc id [] head s =
      .ok sha0
        ⟨(setRef (logEv
            ⟨(tempName s ("cherry-pick-" ++ head), sha0) :: s.refs, s.fresh + 1,
              s.log ++ [.createRef (tempName s ("cherry-pick-" ++ head)) sha0]⟩
            (.updateRef false head sha0)) head sha0).refs.filter
            (fun p => p.1 ≠ tempName s ("cherry-pick-" ++ head)),
          (setRef (logEv
            ⟨(tempName s ("cherry-pick-" ++ head), sha0) :: s.refs, s.fresh + 1,
              s.log ++ [.createRef (tempName s ("cherry-pick-" ++ head)) sha0]⟩
            (.updateRef false head sha0)) head sha0).fresh,
          (setRef (logEv
            ⟨(tempName s ("cherry-pick-" ++ head), sha0) :: s.refs, s.fresh + 1,
              s.log ++ [.createRef (tempName s ("cherry-pick-" ++ head)) sha0]⟩
            (.updateRef false head sha0)) head sha0).log ++
            [.deleteRef (tempName s ("cherry-pick-" ++ head))]⟩ := by
    rw [cherryPickCommits, fetchReferenceSha_some s head sha0 h0]
    dsimp only
    rw [applyIntercept_id, withTemporaryReference]
    rw [createReference_not_mem _ _ _ h1b]
    dsimp only [cherryPickCommitsOnReference]
    rw [updateReference_ff_same anc _ head sha0 hlook]
    dsimp only
    rw [deleteReference_mem _ _ hmem2]
  refine ⟨by rw [hrun]; rfl, ?_, ?_⟩
  · intro q
    rw [hrun]
    by_cases hq : q = tempName s ("cherry-pick-" ++ head)
    · subst hq
      rw [lookupRef_eq_none s _ h1]
      exact lookupRef_filter_self (setRef (logEv
        ⟨(tempName s ("cherry-pick-" ++ head), sha0) :: s.refs, s.fresh + 1,
          s.log ++ [.createRef (tempName s ("cherry-pick-" ++ head)) sha0]⟩
        (.updateRef false head sha0)) head sha0) _
    · refine (lookupRef_filter_ne (setRef (logEv
          ⟨(tempName s ("cherry-pick-" ++ head), sha0) :: s.refs, s.fresh + 1,
            s.log ++ [.createRef (tempName s ("cherry-pick-" ++ head)) sha0]⟩
          (.updateRef false head sha0)) head sha0) _ q hq).trans ?_
      by_cases hqh : q = head
      · rw [hqh]
        rw [lookupRef_setRef_self _ head sha0 (by rw [show lookupRef (logEv
            ⟨(tempName s ("cherry-pick-" ++ head), sha0) :: s.refs, s.fresh + 1,
              s.log ++ [.createRef (tempName s ("cherry-pick-" ++ head)) sha0]⟩
            (.updateRef false head sha0)) head = some sha0 from hlook]; rfl)]
        exact h0.symm
      · refine (lookupRef_setRef_ne _ head q sha0 hqh).trans ?_
        exact lookupRef_cons_ne s _ _ _ q hq
  · rw [hrun]
    dsimp only [GOut.state, setRef, logEv]
    simp [List.append_assoc]

/-- C8 (counterexample): the claim states that on an empty commit list no
reference is created, updated or deleted.  On a concrete repository the run
does return the starting tip, but its remote-call log is not empty: it
creates the temporary reference, issues a (same-sha) update call on the
target branch, and deletes the temporary reference. -/
theorem cherryPickCommits_empty_mutates_cex :
    (cherryPickCommits (fun _ _ => none) noAnc id [] "feature"
        gsFeature).valOf = some "sha0"
    ∧ (cherryPickCommits (fun _ _ => none) noAnc id [] "feature"
        gsFeature).state.log =
      [.createRef "cherry-pick-feature-0" "sha0",
       .updateRef false "feature" "sha0",
       .deleteRef "cherry-pick-feature-0"]
    ∧ (cherryPickCommits (fun _ _ => none) noAnc id [] "feature"
        gsFeature).state.log ≠ [] := by
  refine ⟨by decide, by decide, by decide⟩

/-- C8 (witness): the empty-list characterization applied to a concrete
repository with one `feature` branch. -/
theorem cherryPickCommits_empty_witness :
    (cherryPickCommits (fun _ _ => none) noAnc id [] "feature"
        gsFeature).valOf = some "sha0"
    ∧ (∀ q, lookupRef (cherryPickCommits (fun _ _ => none) noAnc id []
        "feature" gsFeature).state q = lookupRef gsFeature q)
    ∧ (cherryPickCommits (fun _ _ => none) noAnc id [] "feature"
        gsFeature).state.log = gsFeature.log ++
        [.createRef (tempName gsFeature ("cherry-pick-" ++ "feature")) "sha0",
         .updateRef false "feature" "sha0",
         .deleteRef (tempName gsFeature ("cherry-pick-" ++ "feature"))] :=
  cherryPickCommits_empty (fun _ _ => none) noAnc gsFeature "feature" "sha0"
    (by decide) (by decide)

theorem updateReference_ff_anc (anc : AncOracle) (s : GitState) (r : RefName)
    (sha cur : Sha) (h : lookupRef s r = some cur) (hanc : anc cur sha = true) :
    updateReference anc false s r sha =
      .ok () (setRef (logEv s (.updateRef false r sha)) r sha) := by
  rw [updateReference]
  have h2 : lookupRef (logEv s (.updateRef false r sha)) r = some cur := h
  rw [h2]
  simp [hanc]

theorem cherryPickCommit_conflict_eq (f : Sha → Option Sha) (anc : AncOracle)
    (c : Sha) (r : RefName) (sha : Sha) (s : GitState)
    (hc : f c = none) (hr : (lookupRef s r).isSome) :
    cherryPickCommit (fun _ d => f d) anc c r sha s =
      .err (.mergeConflict "Merge conflict") (logEv s (.mergeAttempt r c)) := by
  obtain ⟨tip, htip⟩ := Option.isSome_iff_exists.mp hr
  rw [cherryPickCommit, octoMerge]
  have h2 : lookupRef (logEv s (.mergeAttempt r c)) r = some tip := htip
  rw [h2]
  dsimp only
  rw [hc]

theorem cherryStepState_eq_setRef (c : Sha) (r : RefName) (s : GitState) :
    cherryStepState c r s =
      setRef (setRef
        ⟨s.refs, s.fresh + 1 + 1,
          (s.log ++ [.mergeAttempt r c]) ++
            [.updateRef true r ("generated-" ++ toString (s.fresh + 1))]⟩
        r ("generated-" ++ toString s.fresh))
        r ("generated-" ++ toString (s.fresh + 1)) := rfl

theorem cherryStepState_lookup_ne (c : Sha) (r : RefName) (s : GitState)
    (q : RefName) (hq : q ≠ r) :
    lookupRef (cherryStepState c r s) q = lookupRef s q := by
  rw [cherryStepState_eq_setRef]
  refine (lookupRef_setRef_ne _ r q _ hq).trans ?_
  exact (lookupRef_setRef_ne _ r q _ hq).trans rfl

theorem cherryStepState_isSome (c : Sha) (r : RefName) (s : GitState)
    (hr : (lookupRef s r).isSome) :
    (lookupRef (cherryStepState c r s) r).isSome := by
  rw [cherryStepState_eq_setRef]
  have hr2 : (lookupRef
      (⟨s.refs, s.fresh + 1 + 1,
        (s.log ++ [.mergeAttempt r c]) ++
          [.updateRef true r ("generated-" ++ toString (s.fresh + 1))]⟩ :
        GitState) r).isSome := hr
  rw [lookupRef_setRef_self _ r _ (by rw [lookupRef_setRef_self _ r _ hr2]; rfl)]
  rfl

theorem cherryStepState_log (c : Sha) (r : RefName) (s : GitState) :
    (cherryStepState c r s).log = s.log ++
      [.mergeAttempt r c,
       .updateRef true r ("generated-" ++ toString (s.fresh + 1))] := by
  simp [cherryStepState]

theorem cherryPickCommit_ok_eq (f : Sha → Option Sha) (anc : AncOracle)
    (c : Sha) (r : RefName) (sha : Sha) (s : GitState) (tree : Sha)
    (hc : f c = some tree) (hr : (lookupRef s r).isSome) :
    cherryPickCommit (fun _ d => f d) anc c r sha s =
      .ok ("generated-" ++ toString (s.fresh + 1)) (cherryStepState c r s) := by
  obtain ⟨tip, htip⟩ := Option.isSome_iff_exists.mp hr
  rw [cherryPickCommit, octoMerge]
  have h2 : lookupRef (logEv s (.mergeAttempt r c)) r = some tip := htip
  rw [h2]
  dsimp only
  rw [hc]
  dsimp only [createCommitWithDifferentTree, freshSha, logEv, setRef]
  have h3 : lookupRef
      (⟨s.refs.map (fun p =>
          if p.1 = r then (p.1, "generated-" ++ toString s.fresh) else p),
        s.fresh + 1 + 1, s.log ++ [.mergeAttempt r c]⟩ : GitState) r =
      some ("generated-" ++ toString s.fresh) :=
    lookupRef_setRef_self
      ⟨s.refs, s.fresh + 1 + 1, s.log ++ [.mergeAttempt r c]⟩ r
      ("generated-" ++ toString s.fresh) hr
  rw [updateReference_force anc
    ⟨s.refs.map (fun p =>
        if p.1 = r then (p.1, "generated-" ++ toString s.fresh) else p),
      s.fresh + 1 + 1, s.log ++ [GEv.mergeAttempt r c]⟩ r
    ("generated-" ++ toString (s.fresh + 1)) ("generated-" ++ toString s.fresh)
    h3]
  rfl

theorem cherryPickCommitsOnReference_conflict (f : Sha → Option Sha)
    (anc : AncOracle) (r : RefName) (c : Sha) (post : List Sha)
    (hc : f c = none) :
    ∀ (pre : List Sha) (sha : Sha) (s : GitState),
      (lookupRef s r).isSome →
      (∀ d ∈ pre, (f d).isSome) →
      ∃ s2,
        cherryPickCommitsOnReference (fun _ d => f d) anc r (pre ++ c :: post)
            sha s = .err (.mergeConflict "Merge conflict") s2
        ∧ (∀ q, q ≠ r → lookupRef s2 q = lookupRef s q)
        ∧ (lookupRef s2 r).isSome
        ∧ ∃ evs, s2.log = s.log ++ evs ∧ (∀ e ∈ evs, e.ref = r)
            ∧ evs.filterMap GEv.mergeCommit? = pre ++ [c]
  | [], sha, s, hr, _ => by
      refine ⟨logEv s (.mergeAttempt r c), ?_, fun q _ => rfl, hr,
        [.mergeAttempt r c], rfl, ?_, ?_⟩
      · rw [show ([] : List Sha) ++ c :: post = c :: post from rfl,
          cherryPickCommitsOnReference,
          cherryPickCommit_conflict_eq f anc c r sha s hc hr]
      · intro e he
        simp only [List.mem_singleton] at he
        subst he
        rfl
      · simp [GEv.mergeCommit?]
  | d :: pre, sha, s, hr, hpre => by
      have hd : (f d).isSome := hpre d (by simp)
      obtain ⟨tree, htree⟩ := Option.isSome_iff_exists.mp hd
      obtain ⟨s2, hrec, hlk, hsome, evs, hlog, href, hmc⟩ :=
        cherryPickCommitsOnReference_conflict f anc r c post hc pre
          ("generated-" ++ toString (s.fresh + 1)) (cherryStepState d r s)
          (cherryStepState_isSome d r s hr)
          (fun e he => hpre e (by simp [he]))
      refine ⟨s2, ?_, ?_, hsome,
        [.mergeAttempt r d,
         .updateRef true r ("generated-" ++ toString (s.fresh + 1))] ++ evs,
        ?_, ?_, ?_⟩
      · rw [show (d :: pre) ++ c :: post = d :: (pre ++ c :: post) from rfl,
          cherryPickCommitsOnReference,
          cherryPickCommit_ok_eq f anc d r sha s tree htree hr]
        exact hrec
      · intro q hq
        rw [hlk q hq, cherryStepState_lookup_ne d r s q hq]
      · rw [hlog, cherryStepState_log]
        simp [List.append_assoc]
      · intro e he
        rcases List.mem_append.mp he with h2 | h2
        · rcases List.mem_cons.mp h2 with rfl | h3
          · rfl
          · simp only [List.mem_singleton] at h3
            subst h3
            rfl
        · exact href e h2
      · simp only [List.filterMap_append, hmc]
        simp [GEv.mergeCommit?]

theorem cherryPickCommitsOnReference_clean (f : Sha → Option Sha)
    (anc : AncOracle) (r : RefName) :
    ∀ (cs : List Sha) (sha : Sha) (s : GitState),
      (lookupRef s r).isSome →
      (∀ d ∈ cs, (f d).isSome) →
      ∃ sha2 s2,
        cherryPickCommitsOnReference (fun _ d => f d) anc r cs sha s =
          .ok sha2 s2
        ∧ (∀ q, q ≠ r → lookupRef s2 q = lookupRef s q)
        ∧ (lookupRef s2 r).isSome
        ∧ ∃ evs, s2.log = s.log ++ evs ∧ ∀ e ∈ evs, e.ref = r
  | [], sha, s, hr, _ =>
      ⟨sha, s, rfl, fun q _ => rfl, hr, [], by simp, by simp⟩
  | d :: cs, sha, s, hr, hclean => by
      have hd : (f d).isSome := hclean d (by simp)
      obtain ⟨tree, htree⟩ := Option.isSome_iff_exists.mp hd
      obtain ⟨sha2, s2, hrec, hlk, hsome, evs, hlog, href⟩ :=
        cherryPickCommitsOnReference_clean f anc r cs
          ("generated-" ++ toString (s.fresh + 1)) (cherryStepState d r s)
          (cherryStepState_isSome d r s hr)
          (fun e he => hclean e (by simp [he]))
      refine ⟨sha2, s2, ?_, ?_, hsome,
        [.mergeAttempt r d,
         .updateRef true r ("generated-" ++ toString (s.fresh + 1))] ++ evs,
        ?_, ?_⟩
      · rw [cherryPickCommitsOnReference,
          cherryPickCommit_ok_eq f anc d r sha s tree htree hr]
        exact hrec
      · intro q hq
        rw [hlk q hq, cherryStepState_lookup_ne d r s q hq]
      · rw [hlog, cherryStepState_log]
        simp [List.append_assoc]
      · intro e he
        rcases List.mem_append.mp he with h2 | h2
        · rcases List.mem_cons.mp h2 with rfl | h3
          · rfl
          · simp only [List.mem_singleton] at h3
            subst h3
            rfl
        · exact href e h2

/-- C2 (amended): if any per-commit merge step conflicts, the whole cherry
pick aborts at that commit: the merge endpoint is called exactly for the
preceding commits and the offending one, every reference (in particular the
target branch) keeps its pre-call tip, no call ever touches the target
reference, the temporary branch is gone, and the host's merge-conflict error
is raised — propagated as-is, without naming the offending commit. -/
theorem cherryPickCommits_conflict (f : Sha → Option Sha) (anc : AncOracle)
    (s : GitState) (head : RefName) (sha0 : Sha) (pre post : List Sha)
    (c : Sha)
    (h0 : lookupRef s head = some sha0)
    (h1 : tempName s ("cherry-pick-" ++ head) ∉ refNames s)
    (hlogempty : s.log = [])
    (hpre : ∀ d ∈ pre, (f d).isSome)
    (hc : f c = none) :
    (cherryPickCommits (fun _ d => f d) anc id (pre ++ c :: post) head s).errOf
      = some (.mergeConflict "Merge conflict")
    ∧ (∀ q, lookupRef
        (cherryPickCommits (fun _ d => f d) anc id (pre ++ c :: post) head
          s).state q = lookupRef s q)
    ∧ tempName s ("cherry-pick-" ++ head) ∉ refNames
        (cherryPickCommits (fun _ d => f d) anc id (pre ++ c :: post) head
          s).state
    ∧ (∀ e ∈ (cherryPickCommits (fun _ d => f d) anc id (pre ++ c :: post)
          head s).state.log,
        e.ref = tempName s ("cherry-pick-" ++ head))
    ∧ ((cherryPickCommits (fun _ d => f d) anc id (pre ++ c :: post) head
          s).state.log).filterMap GEv.mergeCommit? = pre ++ [c] := by
  have hheadmem : (lookupRef s head).isSome := by rw [h0]; rfl
  have hne : tempName s ("cherry-pick-" ++ head) ≠ head := by
    intro he
    exact h1 (by rw [he]; exact (mem_refNames_iff s head).mpr hheadmem)
  have h1b : tempName s ("cherry-pick-" ++ head) ∉
      refNames { s with fresh := s.fresh + 1 } := h1
  have hr1 : lookupRef
      ⟨(tempName s ("cherry-pick-" ++ head), sha0) :: s.refs, s.fresh + 1,
        s.log ++ [.createRef (tempName s ("cherry-pick-" ++ head)) sha0]⟩
      (tempName s ("cherry-pick-" ++ head)) = some sha0 := by
    simp only [lookupRef]
    rw [List.find?_cons_of_pos _ (by simp)]
    rfl
  obtain ⟨s2, hloop, hlk, hsome2, evs, hlog2, href, hmc⟩ :=
    cherryPickCommitsOnReference_conflict f anc
      (tempName s ("cherry-pick-" ++ head)) c post hc pre sha0
      ⟨(tempName s ("cherry-pick-" ++ head), sha0) :: s.refs, s.fresh + 1,
        s.log ++ [.createRef (tempName s ("cherry-pick-" ++ head)) sha0]⟩
      (by rw [hr1]; rfl) hpre
  have hmem3 : tempName s ("cherry-pick-" ++ head) ∈ refNames s2 :=
    (mem_refNames_iff s2 _).mpr hsome2
  have hrun : cherryPickCommits (fun _ d => f d) anc id (pre ++ c :: post)
      head s =
      .err (.mergeConflict "Merge conflict")
        ⟨s2.refs.filter (fun p => p.1 ≠ tempName s ("cherry-pick-" ++ head)),
          s2.fresh,
          s2.log ++ [.deleteRef (tempName s ("cherry-pick-" ++ head))]⟩ := by
    rw [cherryPickCommits, fetchReferenceSha_some s head sha0 h0]
    dsimp only
    rw [applyIntercept_id, withTemporaryReference]
    rw [createReference_not_mem _ _ _ h1b]
    dsimp only
    rw [hloop]
    dsimp only
    rw [deleteReference_mem s2 _ hmem3]
  refine ⟨by rw [hrun]; rfl, ?_, ?_, ?_, ?_⟩
  · intro q
    rw [hrun]
    by_cases hq : q = tempName s ("cherry-pick-" ++ head)
    · subst hq
      rw [lookupRef_eq_none s _ h1]
      exact lookupRef_filter_self
        ⟨s2.refs, s2.fresh,
          s2.log ++ [.deleteRef (tempName s ("cherry-pick-" ++ head))]⟩ _
    · refine (lookupRef_filter_ne
        ⟨s2.refs, s2.fresh,
          s2.log ++ [.deleteRef (tempName s ("cherry-pick-" ++ head))]⟩ _ q
        hq).trans ?_
      refine (hlk q hq).trans ?_
      exact lookupRef_cons_ne s _ _ _ q hq
  · rw [hrun]
    dsimp only [GOut.state]
    intro hmem
    have h5 := (mem_refNames_iff _ (tempName s ("cherry-pick-" ++ head))).mp
      hmem
    have hnone : lookupRef
        (⟨s2.refs.filter
            (fun p => p.1 ≠ tempName s ("cherry-pick-" ++ head)), s2.fresh,
          s2.log ++
            [GEv.deleteRef (tempName s ("cherry-pick-" ++ head))]⟩ : GitState)
        (tempName s ("cherry-pick-" ++ head)) = none :=
      lookupRef_filter_self
        ⟨s2.refs, s2.fresh,
          s2.log ++ [GEv.deleteRef (tempName s ("cherry-pick-" ++ head))]⟩ _
    rw [hnone] at h5
    exact absurd h5 (by decide)
  · rw [hrun]
    intro e he
    dsimp only [GOut.state] at he
    rw [hlog2] at he
    dsimp only at he
    rw [hlogempty] at he
    simp only [List.nil_append, List.mem_append, List.mem_singleton] at he
    rcases he with (rfl | he) | rfl
    · rfl
    · exact href e he
    · rfl
  · rw [hrun]
    dsimp only [GOut.state]
    rw [hlog2]
    dsimp only
    rw [hlogempty]
    simp [List.filterMap_append, hmc, GEv.mergeCommit?]

/-- C2 (counterexample): the claim states that the raised conflict error
names the offending commit.  Two runs that conflict on different commits
(`c2` in one, `d7` in the other) raise the very same error value — the
host's fixed "Merge conflict" response, propagated unchanged — whose message
does not contain the offending commit id. -/
theorem cherryPickCommits_conflict_error_cex :
    (cherryPickCommits (fun _ c => conflictAfterC1 c) noAnc id ["c1", "c2"]
        "feature" gsFeature).errOf = some (.mergeConflict "Merge conflict")
    ∧ (cherryPickCommits (fun _ c => conflictAfterC1 c) noAnc id ["c1", "d7"]
        "feature" gsFeature).errOf =
      (cherryPickCommits (fun _ c => conflictAfterC1 c) noAnc id ["c1", "c2"]
        "feature" gsFeature).errOf
    ∧ mentionsSha "Merge conflict" "c2" = false := by
  refine ⟨by decide, by decide, by decide⟩

/-- C2 (witness): the abort characterization applied to a concrete
repository where `c1` applies cleanly and `c2` conflicts. -/
theorem cherryPickCommits_conflict_witness :
    (cherryPickCommits (fun _ d => conflictAfterC1 d) noAnc id
        (["c1"] ++ "c2" :: []) "feature" gsFeature).errOf
      = some (.mergeConflict "Merge conflict")
    ∧ (∀ q, lookupRef
        (cherryPickCommits (fun _ d => conflictAfterC1 d) noAnc id
          (["c1"] ++ "c2" :: []) "feature" gsFeature).state q =
        lookupRef gsFeature q)
    ∧ tempName gsFeature ("cherry-pick-" ++ "feature") ∉ refNames
        (cherryPickCommits (fun _ d => conflictAfterC1 d) noAnc id
          (["c1"] ++ "c2" :: []) "feature" gsFeature).state
    ∧ (∀ e ∈ (cherryPickCommits (fun _ d => conflictAfterC1 d) noAnc id
          (["c1"] ++ "c2" :: []) "feature" gsFeature).state.log,
        e.ref = tempName gsFeature ("cherry-pick-" ++ "feature"))
    ∧ ((cherryPickCommits (fun _ d => conflictAfterC1 d) noAnc id
          (["c1"] ++ "c2" :: []) "feature" gsFeature).state.log).filterMap
        GEv.mergeCommit? = ["c1"] ++ ["c2"] :=
  cherryPickCommits_conflict conflictAfterC1 noAnc gsFeature "feature" "sha0"
    ["c1"] [] "c2" (by decide) (by decide) rfl (by decide) (by decide)

theorem cherryPickCommits_clean (f : Sha → Option Sha) (anc : AncOracle)
    (hanc : ∀ a b, anc a b = true) (cs : List Sha) (head : RefName)
    (s : GitState) (tip : Sha)
    (h0 : lookupRef s head = some tip)
    (h1 : tempName s ("cherry-pick-" ++ head) ∉ refNames s)
    (hclean : ∀ d ∈ cs, (f d).isSome) :
    ∃ newSha s2,
      cherryPickCommits (fun _ d => f d) anc id cs head s = .ok newSha s2
      ∧ (∀ q, q ≠ head → lookupRef s2 q = lookupRef s q)
      ∧ lookupRef s2 head = some newSha
      ∧ ∃ evs, s2.log = s.log ++ evs ∧
          ∀ e ∈ evs,
            e.ref = tempName s ("cherry-pick-" ++ head) ∨ e.ref = head := by
  have hheadmem : (lookupRef s head).isSome := by rw [h0]; rfl
  have hne : tempName s ("cherry-pick-" ++ head) ≠ head := by
    intro he
    exact h1 (by rw [he]; exact (mem_refNames_iff s head).mpr hheadmem)
  have h1b : tempName s ("cherry-pick-" ++ head) ∉
      refNames { s with fresh := s.fresh + 1 } := h1
  have hr1 : lookupRef
      ⟨(tempName s ("cherry-pick-" ++ head), tip) :: s.refs, s.fresh + 1,
        s.log ++ [GEv.createRef (tempName s ("cherry-pick-" ++ head)) tip]⟩
      (tempName s ("cherry-pick-" ++ head)) = some tip := by
    simp only [lookupRef]
    rw [List.find?_cons_of_pos _ (by simp)]
    rfl
  obtain ⟨sha2, s2, hloop, hlk, hsome2, evs, hlog2, href⟩ :=
    cherryPickCommitsOnReference_clean f anc
      (tempName s ("cherry-pick-" ++ head)) cs tip
      ⟨(tempName s ("cherry-pick-" ++ head), tip) :: s.refs, s.fresh + 1,
        s.log ++ [GEv.createRef (tempName s ("cherry-pick-" ++ head)) tip]⟩
      (by rw [hr1]; rfl) hclean
  have hcur : lookupRef s2 head = some tip := by
    refine (hlk head (Ne.symm hne)).trans ?_
    refine (lookupRef_cons_ne s _ _ _ head (Ne.symm hne)).trans h0
  have hupd := updateReference_ff_anc anc s2 head sha2 tip hcur (hanc tip sha2)
  have hmemT : tempName s ("cherry-pick-" ++ head) ∈
      refNames (setRef (logEv s2 (.updateRef false head sha2)) head sha2) := by
    rw [refNames_setRef, refNames_logEv]
    exact (mem_refNames_iff s2 _).mpr hsome2
  have hdel := deleteReference_mem
    (setRef (logEv s2 (.updateRef false head sha2)) head sha2)
    (tempName s ("cherry-pick-" ++ head)) hmemT
  have hrun : cherryPickCommits (fun _ d => f d) anc id cs head s =
      .ok sha2
        ⟨(setRef (logEv s2 (.updateRef false head sha2)) head
            sha2).refs.filter
            (fun p => p.1 ≠ tempName s ("cherry-pick-" ++ head)),
          (setRef (logEv s2 (.updateRef false head sha2)) head sha2).fresh,
          (setRef (logEv s2 (.updateRef false head sha2)) head sha2).log ++
            [GEv.deleteRef (tempName s ("cherry-pick-" ++ head))]⟩ := by
    rw [cherryPickCommits, fetchReferenceSha_some s head tip h0]
    dsimp only
    rw [applyIntercept_id, withTemporaryReference]
    rw [createReference_not_mem _ _ _ h1b]
    dsimp only
    rw [hloop]
    dsimp only
    rw [hupd]
    dsimp only
    rw [hdel]
  refine ⟨sha2, _, hrun, ?_, ?_, ?_⟩
  · intro q hq
    by_cases hqt : q = tempName s ("cherry-pick-" ++ head)
    · subst hqt
      rw [lookupRef_eq_none s _ h1]
      exact lookupRef_filter_self
        (setRef (logEv s2 (.updateRef false head sha2)) head sha2) _
    · refine (lookupRef_filter_ne
        (setRef (logEv s2 (.updateRef false head sha2)) head sha2) _ q
        hqt).trans ?_
      refine (lookupRef_setRef_ne _ head q sha2 hq).trans ?_
      refine (hlk q hqt).trans ?_
      exact lookupRef_cons_ne s _ _ _ q hqt
  · refine (lookupRef_filter_ne
      (setRef (logEv s2 (.updateRef false head sha2)) head sha2) _ head
      (Ne.symm hne)).trans ?_
    exact lookupRef_setRef_self _ head sha2 (by rw [show lookupRef
      (logEv s2 (.updateRef false head sha2)) head = some tip from hcur]; rfl)
  · refine ⟨[GEv.createRef (tempName s ("cherry-pick-" ++ head)) tip] ++ evs ++
      [GEv.updateRef false head sha2] ++
      [GEv.deleteRef (tempName s ("cherry-pick-" ++ head))], ?_, ?_⟩
    · show (setRef (logEv s2 (.updateRef false head sha2)) head sha2).log ++
        [GEv.deleteRef (tempName s ("cherry-pick-" ++ head))] = _
      rw [show (setRef (logEv s2 (.updateRef false head sha2)) head
          sha2).log = s2.log ++ [GEv.updateRef false head sha2] from rfl]
      rw [hlog2]
      dsimp only
      simp [List.append_assoc]
    · intro e he
      simp only [List.mem_append, List.mem_singleton] at he
      rcases he with ((rfl | he) | rfl) | rfl
      · exact Or.inl rfl
      · exact Or.inl (href e he)
      · exact Or.inr rfl
      · exact Or.inl rfl

/-- C3: when the head branch's tip at re-verification time differs from the
tip recorded from the pull-request payload at the start of the call (here:
an external force-push injected at the `_intercept` suspension point),
`rebasePullRequest` aborts with the "head branch changed" error: the head
branch still holds the externally-set tip, no remote call of the run touched
the head reference, and both temporary references are gone. -/
theorem rebasePullRequest_head_changed (f : Sha → Option Sha)
    (anc : AncOracle) (hanc : ∀ a b, anc a b = true) (pr : PRData)
    (commits : List Sha) (i : Intercept) (s : GitState) (b0 hNow : Sha)
    (temp1 temp2 : RefName)
    (ht1def : temp1 =
      "rebase-pull-request-" ++ toString pr.number ++ "-" ++ toString s.fresh)
    (ht2def : temp2 = "cherry-pick-" ++ temp1 ++ "-" ++ toString (s.fresh + 1))
    (hbase : lookupRef s pr.baseRef = some b0)
    (hhead : lookupRef (applyIntercept i s) pr.headRef = some hNow)
    (hdiff : hNow ≠ pr.headSha)
    (ht1 : temp1 ∉ refNames (applyIntercept i s))
    (ht2 : temp2 ∉ refNames (applyIntercept i s))
    (ht12 : temp2 ≠ temp1)
    (hlogempty : s.log = [])
    (hclean : ∀ d ∈ commits, (f d).isSome) :
    (rebasePullRequest (fun _ d => f d) anc pr commits i s).errOf =
      some (.headChanged pr.headRef hNow pr.headSha)
    ∧ lookupRef (rebasePullRequest (fun _ d => f d) anc pr commits i
        s).state pr.headRef = some hNow
    ∧ (∀ e ∈ (rebasePullRequest (fun _ d => f d) anc pr commits i
        s).state.log, e.ref ≠ pr.headRef)
    ∧ temp1 ∉ refNames (rebasePullRequest (fun _ d => f d) anc pr commits i
        s).state
    ∧ temp2 ∉ refNames (rebasePullRequest (fun _ d => f d) anc pr commits i
        s).state := by
  subst ht1def ht2def
  have hheadI : (lookupRef (applyIntercept i s) pr.headRef).isSome := by
    rw [hhead]; rfl
  have hneH1 : "rebase-pull-request-" ++ toString pr.number ++ "-" ++
      toString s.fresh ≠ pr.headRef := by
    intro he
    rw [he] at ht1
    exact ht1 ((mem_refNames_iff (applyIntercept i s) _).mpr hheadI)
  have hneH2 : "cherry-pick-" ++
      ("rebase-pull-request-" ++ toString pr.number ++ "-" ++
        toString s.fresh) ++ "-" ++ toString (s.fresh + 1) ≠ pr.headRef := by
    intro he
    rw [he] at ht2
    exact ht2 ((mem_refNames_iff (applyIntercept i s) _).mpr hheadI)
  have hheadc : lookupRef
      (⟨i s.refs, s.fresh, s.log⟩ : GitState) pr.headRef = some hNow := hhead
  have ht1c : "rebase-pull-request-" ++ toString pr.number ++ "-" ++
      toString s.fresh ∉ refNames (⟨i s.refs, s.fresh + 1, s.log⟩ : GitState) :=
    ht1
  have hr1 : lookupRef
      ⟨("rebase-pull-request-" ++ toString pr.number ++ "-" ++
          toString s.fresh, b0) :: i s.refs, s.fresh + 1,
        s.log ++ [GEv.createRef ("rebase-pull-request-" ++
          toString pr.number ++ "-" ++ toString s.fresh) b0]⟩
      ("rebase-pull-request-" ++ toString pr.number ++ "-" ++
        toString s.fresh) = some b0 := by
    simp only [lookupRef]
    rw [List.find?_cons_of_pos _ (by simp)]
    rfl
  have htempNameEq : tempName
      ⟨("rebase-pull-request-" ++ toString pr.number ++ "-" ++
          toString s.fresh, b0) :: i s.refs, s.fresh + 1,
        s.log ++ [GEv.createRef ("rebase-pull-request-" ++
          toString pr.number ++ "-" ++ toString s.fresh) b0]⟩
      ("cherry-pick-" ++ ("rebase-pull-request-" ++ toString pr.number ++
        "-" ++ toString s.fresh)) =
      "cherry-pick-" ++ ("rebase-pull-request-" ++ toString pr.number ++
        "-" ++ toString s.fresh) ++ "-" ++ toString (s.fresh + 1) := rfl
  have ht2b : "cherry-pick-" ++ ("rebase-pull-request-" ++
      toString pr.number ++ "-" ++ toString s.fresh) ++ "-" ++
      toString (s.fresh + 1) ∉
      refNames ⟨("rebase-pull-request-" ++ toString pr.number ++ "-" ++
          toString s.fresh, b0) :: i s.refs, s.fresh + 1,
        s.log ++ [GEv.createRef ("rebase-pull-request-" ++
          toString pr.number ++ "-" ++ toString s.fresh) b0]⟩ := by
    intro hmem
    simp only [refNames, List.map_cons, List.mem_cons] at hmem
    rcases hmem with heq | hmem
    · exact ht12 heq
    · exact ht2 hmem
  obtain ⟨newSha, s2, hcc, hpres, hheadval, evs, hlog, hrefs⟩ :=
    cherryPickCommits_clean f anc hanc commits
      ("rebase-pull-request-" ++ toString pr.number ++ "-" ++
        toString s.fresh)
      ⟨("rebase-pull-request-" ++ toString pr.number ++ "-" ++
          toString s.fresh, b0) :: i s.refs, s.fresh + 1,
        s.log ++ [GEv.createRef ("rebase-pull-request-" ++
          toString pr.number ++ "-" ++ toString s.fresh) b0]⟩
      b0 hr1 (htempNameEq ▸ ht2b) hclean
  have hget : lookupRef s2 pr.headRef = some hNow := by
    refine (hpres pr.headRef (Ne.symm hneH1)).trans ?_
    refine (lookupRef_cons_ne ⟨i s.refs, s.fresh + 1, s.log⟩ _ _ _ pr.headRef
      (Ne.symm hneH1)).trans hheadc
  have hmemT1 : ("rebase-pull-request-" ++ toString pr.number ++ "-" ++
      toString s.fresh) ∈ refNames s2 :=
    (mem_refNames_iff s2 _).mpr (by rw [hheadval]; rfl)
  have hdel := deleteReference_mem s2
    ("rebase-pull-request-" ++ toString pr.number ++ "-" ++ toString s.fresh)
    hmemT1
  have hrun : rebasePullRequest (fun _ d => f d) anc pr commits i s =
      .err (.headChanged pr.headRef hNow pr.headSha)
        ⟨s2.refs.filter (fun p => p.1 ≠ "rebase-pull-request-" ++
            toString pr.number ++ "-" ++ toString s.fresh), s2.fresh,
          s2.log ++ [GEv.deleteRef ("rebase-pull-request-" ++
            toString pr.number ++ "-" ++ toString s.fresh)]⟩ := by
    rw [rebasePullRequest, fetchReferenceSha_some s pr.baseRef b0 hbase]
    dsimp only [applyIntercept]
    rw [withTemporaryReference]
    rw [createReference_not_mem _ _ _ ht1c]
    dsimp only
    rw [hcc]
    dsimp only
    rw [checkSameHead, fetchReferenceSha_some s2 pr.headRef hNow hget]
    dsimp only
    rw [if_pos hdiff]
    dsimp only
    rw [hdel]
  refine ⟨by rw [hrun]; rfl, ?_, ?_, ?_, ?_⟩
  · rw [hrun]
    refine (lookupRef_filter_ne s2 _ pr.headRef (Ne.symm hneH1)).trans hget
  · rw [hrun]
    intro e he
    dsimp only [GOut.state] at he
    rw [hlog] at he
    dsimp only at he
    rw [hlogempty] at he
    simp only [List.nil_append, List.mem_append, List.mem_singleton] at he
    rcases he with (rfl | he) | rfl
    · exact hneH1
    · rcases hrefs e he with h2 | h2
      · rw [h2, htempNameEq]
        exact hneH2
      · rw [h2]
        exact hneH1
    · exact hneH1
  · rw [hrun]
    dsimp only [GOut.state]
    intro hmem
    have h5 := (mem_refNames_iff _ ("rebase-pull-request-" ++
      toString pr.number ++ "-" ++ toString s.fresh)).mp hmem
    have hnone : lookupRef
        (⟨s2.refs.filter (fun p => p.1 ≠ "rebase-pull-request-" ++
            toString pr.number ++ "-" ++ toString s.fresh), s2.fresh,
          s2.log ++ [GEv.deleteRef ("rebase-pull-request-" ++
            toString pr.number ++ "-" ++ toString s.fresh)]⟩ : GitState)
        ("rebase-pull-request-" ++ toString pr.number ++ "-" ++
          toString s.fresh) = none :=
      lookupRef_filter_self
        ⟨s2.refs, s2.fresh,
          s2.log ++ [GEv.deleteRef ("rebase-pull-request-" ++
            toString pr.number ++ "-" ++ toString s.fresh)]⟩ _
    rw [hnone] at h5
    exact absurd h5 (by decide)
  · rw [hrun]
    dsimp only [GOut.state]
    intro hmem
    have h5 := (mem_refNames_iff _ ("cherry-pick-" ++
      ("rebase-pull-request-" ++ toString pr.number ++ "-" ++
        toString s.fresh) ++ "-" ++ toString (s.fresh + 1))).mp hmem
    have hlast : lookupRef
        (⟨s2.refs.filter (fun p => p.1 ≠ "rebase-pull-request-" ++
            toString pr.number ++ "-" ++ toString s.fresh), s2.fresh,
          s2.log ++ [GEv.deleteRef ("rebase-pull-request-" ++
            toString pr.number ++ "-" ++ toString s.fresh)]⟩ : GitState)
        ("cherry-pick-" ++ ("rebase-pull-request-" ++ toString pr.number ++
          "-" ++ toString s.fresh) ++ "-" ++ toString (s.fresh + 1)) =
        none := by
      refine (lookupRef_filter_ne
        ⟨s2.refs, s2.fresh,
          s2.log ++ [GEv.deleteRef ("rebase-pull-request-" ++
            toString pr.number ++ "-" ++ toString s.fresh)]⟩ _ _
        ht12).trans ?_
      refine (hpres _ ht12).trans ?_
      refine (lookupRef_cons_ne ⟨i s.refs, s.fresh + 1, s.log⟩ _ _ _ _
        ht12).trans ?_
      exact lookupRef_eq_none ⟨i s.refs, s.fresh + 1, s.log⟩ _ ht2
    rw [hlast] at h5
    exact absurd h5 (by decide)

/-- C3 (witness): a concrete run where another process force-pushes the head
branch from `h0` to `h1` while the rebase call is in flight. -/
theorem rebasePullRequest_head_changed_witness :
    (rebasePullRequest (fun _ d => cleanOracle d) allAnc c3PR ["c1"]
        c3Intercept c3State).errOf =
      some (.headChanged c3PR.headRef "h1" c3PR.headSha)
    ∧ lookupRef (rebasePullRequest (fun _ d => cleanOracle d) allAnc c3PR
        ["c1"] c3Intercept c3State).state c3PR.headRef = some "h1"
    ∧ (∀ e ∈ (rebasePullRequest (fun _ d => cleanOracle d) allAnc c3PR
        ["c1"] c3Intercept c3State).state.log, e.ref ≠ c3PR.headRef)
    ∧ "rebase-pull-request-1-0" ∉ refNames
        (rebasePullRequest (fun _ d => cleanOracle d) allAnc c3PR ["c1"]
          c3Intercept c3State).state
    ∧ "cherry-pick-rebase-pull-request-1-0-1" ∉ refNames
        (rebasePullRequest (fun _ d => cleanOracle d) allAnc c3PR ["c1"]
          c3Intercept c3State).state :=
  rebasePullRequest_head_changed cleanOracle allAnc (fun _ _ => rfl) c3PR
    ["c1"] c3Intercept c3State "m0" "h1" "rebase-pull-request-1-0"
    "cherry-pick-rebase-pull-request-1-0-1" (by decide) (by decide)
    (by decide) (by decide) (by decide) (by decide) (by decide) (by decide)
    rfl (by decide)

end Autorebase
